import Mathlib

/-!
Verification development for the VASP interface module of the httk toolkit
(`httk/iface/vasp_if.py`).

The Python module is shallowly embedded: Python strings become `List Char`,
text streams become `List PStr` (one entry per line, without the trailing
newline), fallible code returns `Except`, and the ad-hoc objects built by the
module become Lean structures.  Functions keep their Python names.  Helper
code of the repository that is imported by `vasp_if.py` but whose source is
not available here (IO adapters, `micro_pyawk`, `FracVector`, the periodic
table, manifest reading) is modelled from the specification; each such
definition carries a doc comment saying so.
-/

namespace VaspIf

/-- Python strings are modelled as lists of characters. -/
abbrev PStr := List Char

/-- The whitespace characters recognized by Python's `str.split()` and
`str.strip()` (space, tab, newline, carriage return, vertical tab, form feed). -/
def isWS (c : Char) : Bool :=
  c = ' ' || c = '\t' || c = '\n' || c = '\r' || c = '\x0b' || c = '\x0c'

/-- Fuel-driven worker for `pySplit`.  Each step consumes at least one
character, so fuel equal to the string length always suffices; the fuel makes
the recursion structural and hence kernel-evaluable. -/
def pySplitF : Nat → PStr → List PStr
  | 0, _ => []
  | _ + 1, [] => []
  | fuel + 1, c :: cs =>
    if isWS c then pySplitF fuel cs
    else (c :: cs.takeWhile (fun d => !isWS d)) :: pySplitF fuel (cs.dropWhile (fun d => !isWS d))

/-- Python `str.split()` with no argument: split on runs of whitespace,
producing no empty pieces. -/
def pySplit (s : PStr) : List PStr := pySplitF s.length s

/-- Python `str.strip()`: remove leading and trailing whitespace. -/
def pyStrip (s : PStr) : PStr :=
  ((s.dropWhile isWS).reverse.dropWhile isWS).reverse

/-- The numeric value of a decimal digit character, if it is one. -/
def digitVal (c : Char) : Option Nat :=
  if '0' ≤ c ∧ c ≤ '9' then some (c.toNat - '0'.toNat) else none

/-- Big-endian accumulation of decimal digits; fails on a non-digit. -/
def parseDigitsAux : Nat → PStr → Option Nat
  | acc, [] => some acc
  | acc, c :: cs =>
    match digitVal c with
    | some d => parseDigitsAux (acc * 10 + d) cs
    | none => none

/-- A non-empty all-digit string read as a natural number. -/
def parseDigits (s : PStr) : Option Nat :=
  match s with
  | [] => none
  | _ :: _ => parseDigitsAux 0 s

/-- Python `int(s)`: strip whitespace, optional sign, then decimal digits. -/
def pyIntParse (s : PStr) : Option Int :=
  match pyStrip s with
  | [] => none
  | c :: rest =>
    if c = '+' then (parseDigits rest).map Int.ofNat
    else if c = '-' then (parseDigits rest).map (fun n => -(n : Int))
    else (parseDigits (c :: rest)).map Int.ofNat

/-- The decimal digit character for a value `d < 10`. -/
def digitChr (d : Nat) : Char := Char.ofNat ('0'.toNat + d)

/-- Little-endian decimal digits by fuel (`n` itself bounds the recursion
depth, keeping the definition structural and kernel-evaluable). -/
def decDigitsF : Nat → Nat → List Nat
  | 0, _ => []
  | f + 1, n => if n = 0 then [] else n % 10 :: decDigitsF f (n / 10)

/-- Little-endian decimal digits of a natural number. -/
def decDigits (n : Nat) : List Nat := decDigitsF n n

/-- Python `str(n)` for a natural number: its decimal notation. -/
def natToDec (n : Nat) : PStr :=
  if n = 0 then ['0'] else (decDigits n).reverse.map digitChr

/-- Python `str(z)` for an integer. -/
def intToDec (z : Int) : PStr :=
  if z < 0 then '-' :: natToDec z.natAbs else natToDec z.natAbs

/-- Decimal value of an all-digit string (digits already validated). -/
def digitsValue (s : PStr) : Nat :=
  s.foldl (fun a c => a * 10 + ((digitVal c).getD 0)) 0

/-- Exponent suffix of a Python float literal: empty, or `e`/`E`,
an optional sign and at least one digit. -/
def parseExpPart (s : PStr) : Option Int :=
  match s with
  | [] => some 0
  | c :: rest =>
    if c = 'e' ∨ c = 'E' then
      match rest with
      | '+' :: ds => if ds ≠ [] ∧ ds.all (fun d => (digitVal d).isSome) then some (digitsValue ds) else none
      | '-' :: ds => if ds ≠ [] ∧ ds.all (fun d => (digitVal d).isSome) then some (-(digitsValue ds : Int)) else none
      | ds => if ds ≠ [] ∧ ds.all (fun d => (digitVal d).isSome) then some (digitsValue ds) else none
    else none

/-- Python `float(s)` on decimal literals, modelled with exact rational
values: strip whitespace, optional sign, digits with an optional point,
optional exponent.  (`inf`/`nan` literals are outside the model.) -/
def pyFloatParse (s : PStr) : Option ℚ := do
  let t := pyStrip s
  let (sgn, u) : ℚ × PStr :=
    match t with
    | '+' :: r => (1, r)
    | '-' :: r => (-1, r)
    | _ => (1, t)
  let intPart := u.takeWhile (fun c => (digitVal c).isSome)
  let rest1 := u.dropWhile (fun c => (digitVal c).isSome)
  match rest1 with
  | '.' :: r2 =>
    let fracPart := r2.takeWhile (fun c => (digitVal c).isSome)
    let rest2 := r2.dropWhile (fun c => (digitVal c).isSome)
    if intPart = [] ∧ fracPart = [] then none
    else do
      let e ← parseExpPart rest2
      pure (sgn * ((digitsValue intPart : ℚ) + (digitsValue fracPart : ℚ) / 10 ^ fracPart.length) * (10 : ℚ) ^ e)
  | rest1 => do
    if intPart = [] then none
    else do
      let e ← parseExpPart rest1
      pure (sgn * (digitsValue intPart : ℚ) * (10 : ℚ) ^ e)

/-- Split on every occurrence of one character, keeping empty pieces
(Python `str.split('.')`). -/
def splitOnChar (c : Char) : PStr → List PStr
  | [] => [[]]
  | d :: ds =>
    if d = c then [] :: splitOnChar c ds
    else
      match splitOnChar c ds with
      | [] => [[d]]
      | t :: ts => (d :: t) :: ts

/-- `re.search` of a plain-text pattern: substring containment. -/
def containsSub (sub : PStr) : PStr → Bool
  | [] => sub.isEmpty
  | c :: cs => sub.isPrefixOf (c :: cs) || containsSub sub cs

/-- The Python failure conditions that the embedded functions can raise. -/
inductive PyErr
  | stopIteration
  | valueError
  | indexError
  | keyError
  | attributeError
  | nameError
  | typeError
  | singular
  | ioError
  | notFound (msg : String)
deriving DecidableEq, Repr

/-- A text stream: its lines, without trailing newlines. -/
abbrev Lines := List PStr

/-- Python `next(fi)` on a line iterator: `StopIteration` when exhausted. -/
def nextLine : Lines → Except PyErr (PStr × Lines)
  | [] => .error .stopIteration
  | l :: ls => .ok (l, ls)

/-- Modelled from the spec: `httk.atomistic.data.periodictable.numbers`,
the chemical-symbol → atomic-number table (module not in the sources; a
finite fragment covering the species used in this development). -/
def ptNumbers (s : PStr) : Option Int :=
  if s = "H".data then some 1 else if s = "He".data then some 2
  else if s = "Li".data then some 3 else if s = "C".data then some 6
  else if s = "N".data then some 7 else if s = "O".data then some 8
  else if s = "Si".data then some 14 else if s = "S".data then some 16
  else if s = "Ti".data then some 22 else if s = "Cr".data then some 24
  else if s = "Mn".data then some 25 else if s = "Fe".data then some 26
  else if s = "Co".data then some 27 else if s = "Ni".data then some 28
  else none

/-- Python `list(map(int, ts))`: every token converted, `None` on failure. -/
def mapInts : List PStr → Option (List Int)
  | [] => some []
  | t :: ts =>
    match pyIntParse t, mapInts ts with
    | some v, some vs => some (v :: vs)
    | _, _ => none

/-- The counts comprehension `[int(s) for s in …]`: a failing token raises. -/
def mapIntsE : List PStr → Except PyErr (List Int)
  | [] => .ok []
  | t :: ts =>
    match pyIntParse t with
    | none => .error .valueError
    | some v => do
      let vs ← mapIntsE ts
      .ok (v :: vs)

/-- The occupations comprehension `[periodictable.numbers[symbol] …]`:
a symbol absent from the table raises `KeyError`. -/
def mapOccs : List PStr → Except PyErr (List Int)
  | [] => .ok []
  | t :: ts =>
    match ptNumbers t with
    | none => .error .keyError
    | some v => do
      let vs ← mapOccs ts
      .ok (v :: vs)

/-- One POSCAR cell row: `next(fi).strip().split()` written slot by slot into
a row prefilled with three empty strings; a fourth token is an `IndexError`. -/
def cellRowOf (line : PStr) : Except PyErr (List PStr) :=
  let ts := pySplit (pyStrip line)
  if ts.length ≤ 3 then .ok (ts ++ List.replicate (3 - ts.length) [])
  else .error .indexError

/-- Python `range(-1, -n-1, -1)`: the occupations `-1, -2, …, -n` used when a
POSCAR gives no species symbols. -/
def negRange (n : Nat) : List Int := (List.range n).map (fun i => -(1 : Int) - i)

/-- The coordinate-reading loop of `poscar_to_strs`: `N` lines, each stripped,
split, truncated to three tokens, each token stripped and (when
`included_decimals` is set) cut to `2 + included_decimals` characters. -/
def readCoords (included_decimals : Option Nat) : Nat → Lines → Except PyErr (List (List PStr) × Lines)
  | 0, rest => .ok ([], rest)
  | n + 1, rest => do
    let (l, r) ← nextLine rest
    let strcoord := (pySplit (pyStrip l)).take 3
    let tempcoord := strcoord.map pyStrip
    let coord := match included_decimals with
      | none => tempcoord
      | some d => tempcoord.map (fun x => x.take (2 + d))
    let (cs, r') ← readCoords included_decimals n r
    .ok (coord :: cs, r')

/-- The record returned by `poscar_to_strs`. -/
structure PoscarStrs where
  cell : List (List PStr)
  scale : Option PStr
  vol : Option PStr
  coords : List (List PStr)
  coords_reduced : Bool
  counts : List Int
  occupations : List Int
  comment : PStr
deriving DecidableEq, Repr

/-- `poscar_to_strs`: parse a POSCAR stream into string tokens, following the
source line by line.  Also returns the unconsumed lines. -/
def poscar_to_strs (lines : Lines) (included_decimals : Option Nat := none) :
    Except PyErr (PoscarStrs × Lines) := do
  let (l1, fi1) ← nextLine lines
  let comment := pyStrip l1
  let (l2, fi2) ← nextLine fi1
  let vol_or_scale := pyStrip l2
  let vol_or_scale_nbr ← match pyFloatParse vol_or_scale with
    | none => Except.error PyErr.valueError
    | some q => Except.ok q
  let (scale, vol) : Option PStr × Option PStr :=
    if vol_or_scale_nbr < 0 then (none, some vol_or_scale.tail)
    else (some vol_or_scale, none)
  let (cl1, fi3) ← nextLine fi2
  let row1 ← cellRowOf cl1
  let (cl2, fi4) ← nextLine fi3
  let row2 ← cellRowOf cl2
  let (cl3, fi5) ← nextLine fi4
  let row3 ← cellRowOf cl3
  let (l6, fi6) ← nextLine fi5
  let symbols_or_count := pySplit (pyStrip l6)
  let (counts, occupations, fi7) ←
    match mapInts symbols_or_count with
    | some cs => Except.ok (cs, negRange symbols_or_count.length, fi6)
    | none => do
      let (l7, fi7a) ← nextLine fi6
      let counts ← mapIntsE (pySplit (pyStrip l7))
      let occupations ← mapOccs symbols_or_count
      Except.ok (counts, occupations, fi7a)
  let N : Int := counts.sum
  let (l8, fi8) ← nextLine fi7
  let ct_or_sd := pyStrip l8
  let (coordtype, fi9) ←
    match ct_or_sd with
    | [] => Except.error PyErr.indexError
    | c :: _ =>
      if c = 'S' ∨ c = 's' then do
        let (l9, fi9a) ← nextLine fi8
        Except.ok (pyStrip l9, fi9a)
      else Except.ok (ct_or_sd, fi8)
  let coords_reduced ← match coordtype with
    | [] => Except.error PyErr.indexError
    | c :: _ => Except.ok (c = 'C' || c = 'c' || c = 'K' || c = 'k')
  let (coords, fi10) ← readCoords included_decimals N.toNat fi9
  Except.ok ({ cell := [row1, row2, row3], scale := scale, vol := vol,
               coords := coords, coords_reduced := coords_reduced,
               counts := counts, occupations := occupations,
               comment := comment }, fi10)

/-- `write_poscar`, embedded as the list of lines it writes.  Arguments carry
the types the module's callers pass: cell rows and coordinate rows as string
token triples, counts as naturals, occupations as species symbols.  Each
Python `f.write(x + "\n")` contributes one line (token strings are assumed
newline-free; the theorems hypothesize this as needed).  Python indexes
`occupations[i]` for `i < len(counts)` and would raise if `occupations` were
shorter, so the embedding takes exactly `counts.length` entries and the
theorems hypothesize equal lengths. -/
def write_poscar (cell : List (PStr × PStr × PStr)) (coords : List (PStr × PStr × PStr))
    (coords_reduced : Bool) (counts : List Nat) (occupations : List PStr)
    (comment : PStr) (scale : PStr) (vol : Option PStr) : Lines :=
  [comment,
   match vol with
   | some v => '-' :: v
   | none => scale]
  ++ cell.map (fun r => r.1 ++ ' ' :: r.2.1 ++ ' ' :: r.2.2)
  ++ [((occupations.take counts.length).map (fun o => o ++ [' '])).flatten,
      (counts.map (fun n => natToDec n ++ [' '])).flatten,
      if coords_reduced then ['D'] else ['K']]
  ++ coords.map (fun r => r.1 ++ ' ' :: r.2.1 ++ ' ' :: r.2.2)

/-! ### Lemmas about the string model -/

theorem takeWhile_append_of_all {p : Char → Bool} {l1 : PStr} (h : ∀ c ∈ l1, p c = true)
    (l2 : PStr) : (l1 ++ l2).takeWhile p = l1 ++ l2.takeWhile p := by
  induction l1 with
  | nil => rfl
  | cons c cs ih =>
    simp only [List.cons_append, List.takeWhile_cons_of_pos (h c (by simp))]
    rw [ih (fun x hx => h x (by simp [hx]))]

theorem dropWhile_append_of_all {p : Char → Bool} {l1 : PStr} (h : ∀ c ∈ l1, p c = true)
    (l2 : PStr) : (l1 ++ l2).dropWhile p = l2.dropWhile p := by
  induction l1 with
  | nil => rfl
  | cons c cs ih =>
    simp only [List.cons_append, List.dropWhile_cons_of_pos (h c (by simp))]
    exact ih fun x hx => h x (by simp [hx])

theorem takeWhile_of_all {p : Char → Bool} {l : PStr} (h : ∀ c ∈ l, p c = true) :
    l.takeWhile p = l := by
  have := takeWhile_append_of_all h []
  simpa using this

theorem dropWhile_of_all {p : Char → Bool} {l : PStr} (h : ∀ c ∈ l, p c = true) :
    l.dropWhile p = [] := by
  have := dropWhile_append_of_all h []
  simpa using this

theorem takeWhile_append_of_not_all {p : Char → Bool} {l1 : PStr} (h : l1.all p = false)
    (l2 : PStr) : (l1 ++ l2).takeWhile p = l1.takeWhile p := by
  induction l1 with
  | nil => simp at h
  | cons c cs ih =>
    by_cases hc : p c = true
    · simp only [List.all_cons, hc, Bool.true_and] at h
      simp only [List.cons_append, List.takeWhile_cons_of_pos hc, ih h]
    · simp only [List.cons_append, List.takeWhile_cons_of_neg hc,
        List.takeWhile_cons_of_neg hc]

theorem dropWhile_append_of_not_all {p : Char → Bool} {l1 : PStr} (h : l1.all p = false)
    (l2 : PStr) : (l1 ++ l2).dropWhile p = l1.dropWhile p ++ l2 := by
  induction l1 with
  | nil => simp at h
  | cons c cs ih =>
    by_cases hc : p c = true
    · simp only [List.all_cons, hc, Bool.true_and] at h
      simp only [List.cons_append, List.dropWhile_cons_of_pos hc, ih h]
    · simp only [List.cons_append, List.dropWhile_cons_of_neg hc,
        List.dropWhile_cons_of_neg hc]

theorem pySplitF_fuel_irrel : ∀ f1 f2 (s : PStr), s.length ≤ f1 → s.length ≤ f2 →
    pySplitF f1 s = pySplitF f2 s := by
  intro f1
  induction f1 with
  | zero =>
    intro f2 s h1 _
    have : s = [] := List.length_eq_zero.mp (Nat.le_zero.mp h1)
    subst this
    cases f2 <;> rfl
  | succ g ih =>
    intro f2 s h1 h2
    match s, f2 with
    | [], 0 => rfl
    | [], _ + 1 => rfl
    | c :: cs, f2 + 1 =>
      simp only [List.length_cons, Nat.add_le_add_iff_right] at h1 h2
      rw [pySplitF, pySplitF]
      by_cases hc : isWS c = true
      · rw [if_pos hc, if_pos hc]
        exact ih f2 cs h1 h2
      · rw [if_neg hc, if_neg hc]
        have hd := (List.dropWhile_suffix (l := cs) (fun d => !isWS d)).length_le
        rw [ih f2 _ (le_trans hd h1) (le_trans hd h2)]

theorem pySplit_nil : pySplit [] = [] := rfl

theorem pySplit_ws_cons {c : Char} (h : isWS c = true) (cs : PStr) :
    pySplit (c :: cs) = pySplit cs := by
  show pySplitF (cs.length + 1) (c :: cs) = pySplitF cs.length cs
  rw [pySplitF, if_pos h]

theorem pySplit_cons_of_neg {c : Char} (h : isWS c = false) (cs : PStr) :
    pySplit (c :: cs) =
      (c :: cs.takeWhile (fun d => !isWS d)) :: pySplit (cs.dropWhile (fun d => !isWS d)) := by
  show pySplitF (cs.length + 1) (c :: cs) = _
  rw [pySplitF, if_neg (by simp [h])]
  congr 1
  exact pySplitF_fuel_irrel _ _ _
    (List.dropWhile_suffix (fun d => !isWS d)).length_le le_rfl

theorem pySplit_all_ws {s : PStr} (h : ∀ c ∈ s, isWS c = true) : pySplit s = [] := by
  induction s with
  | nil => exact pySplit_nil
  | cons c cs ih =>
    rw [pySplit_ws_cons (h c (by simp))]
    exact ih fun x hx => h x (by simp [hx])

theorem pySplit_append_ws {w : PStr} (hw : ∀ c ∈ w, isWS c = true) (s : PStr) :
    pySplit (s ++ w) = pySplit s := by
  suffices H : ∀ n s, s.length = n → pySplit (s ++ w) = pySplit s from H s.length s rfl
  intro n
  induction n using Nat.strong_induction_on with
  | _ n ih =>
    intro s hn
    match s with
    | [] => rw [List.nil_append, pySplit_all_ws hw, pySplit_nil]
    | c :: cs =>
      by_cases hc : isWS c = true
      · rw [List.cons_append, pySplit_ws_cons hc, pySplit_ws_cons hc]
        exact ih cs.length (by simp [← hn]) cs rfl
      · have hc' : isWS c = false := by revert hc; cases isWS c <;> simp
        rw [List.cons_append, pySplit_cons_of_neg hc', pySplit_cons_of_neg hc']
        by_cases hall : cs.all (fun d => !isWS d) = true
        · have hmem : ∀ x ∈ cs, (fun d => !isWS d) x = true := by
            intro x hx; exact (List.all_eq_true.mp hall) x hx
          have hw' : w.takeWhile (fun d => !isWS d) = [] := by
            cases w with
            | nil => rfl
            | cons d ds =>
              have : isWS d = true := hw d (by simp)
              simp [List.takeWhile_cons, this]
          have hw'' : w.dropWhile (fun d => !isWS d) = w := by
            cases w with
            | nil => rfl
            | cons d ds =>
              have : isWS d = true := hw d (by simp)
              simp [List.dropWhile_cons, this]
          rw [takeWhile_append_of_all hmem, dropWhile_append_of_all hmem, hw', hw'',
            pySplit_all_ws hw, takeWhile_of_all hmem, dropWhile_of_all hmem]
          simp [pySplit_nil]
        · have hall' : cs.all (fun d => !isWS d) = false := by
            revert hall; cases cs.all (fun d => !isWS d) <;> simp
          rw [takeWhile_append_of_not_all hall', dropWhile_append_of_not_all hall']
          have hlen : (cs.dropWhile (fun d => !isWS d)).length < n := by
            have h1 := (List.dropWhile_suffix (l := cs) (fun d => !isWS d)).length_le
            have h2 : cs.length + 1 = n := by simpa using hn
            omega
          rw [ih _ hlen _ rfl]

theorem pySplit_dropWhile_ws (s : PStr) : pySplit (s.dropWhile isWS) = pySplit s := by
  induction s with
  | nil => rfl
  | cons c cs ih =>
    by_cases hc : isWS c = true
    · rw [List.dropWhile_cons_of_pos hc, ih, pySplit_ws_cons hc]
    · rw [List.dropWhile_cons_of_neg (by simp [hc])]

/-- Stripping does not change how a line splits into tokens. -/
theorem pySplit_pyStrip (s : PStr) : pySplit (pyStrip s) = pySplit s := by
  unfold pyStrip
  have hdec : s.dropWhile isWS =
      ((s.dropWhile isWS).reverse.dropWhile isWS).reverse ++
      ((s.dropWhile isWS).reverse.takeWhile isWS).reverse := by
    conv_lhs => rw [← List.reverse_reverse (s.dropWhile isWS),
      ← List.takeWhile_append_dropWhile (p := isWS) (l := (s.dropWhile isWS).reverse)]
    rw [List.reverse_append]
  have hw : ∀ c ∈ ((s.dropWhile isWS).reverse.takeWhile isWS).reverse, isWS c = true := by
    intro c hc
    rw [List.mem_reverse] at hc
    exact List.mem_takeWhile_imp hc
  calc pySplit (((s.dropWhile isWS).reverse.dropWhile isWS).reverse)
      = pySplit (((s.dropWhile isWS).reverse.dropWhile isWS).reverse ++
          ((s.dropWhile isWS).reverse.takeWhile isWS).reverse) :=
        (pySplit_append_ws hw _).symm
    _ = pySplit (s.dropWhile isWS) := by rw [← hdec]
    _ = pySplit s := pySplit_dropWhile_ws s

/-- A token followed by a space: `split` peels it off. -/
theorem pySplit_token_cons {t : PStr} (hne : t ≠ []) (hnw : ∀ c ∈ t, isWS c = false)
    (r : PStr) : pySplit (t ++ ' ' :: r) = t :: pySplit r := by
  match t with
  | c :: cs =>
    have hc : isWS c = false := hnw c (by simp)
    have hmem : ∀ x ∈ cs, (fun d => !isWS d) x = true := by
      intro x hx; simp [hnw x (by simp [hx])]
    rw [List.cons_append, pySplit_cons_of_neg hc]
    rw [takeWhile_append_of_all hmem, dropWhile_append_of_all hmem]
    have h1 : (' ' :: r).takeWhile (fun d => !isWS d) = [] := by
      simp [List.takeWhile_cons, isWS]
    have h2 : (' ' :: r).dropWhile (fun d => !isWS d) = ' ' :: r := by
      simp [List.dropWhile_cons, isWS]
    rw [h1, h2, pySplit_ws_cons (by simp [isWS])]
    simp

/-- A lone non-empty whitespace-free token splits to itself. -/
theorem pySplit_token_single {t : PStr} (hne : t ≠ []) (hnw : ∀ c ∈ t, isWS c = false) :
    pySplit t = [t] := by
  match t with
  | c :: cs =>
    have hc : isWS c = false := hnw c (by simp)
    have hmem : ∀ x ∈ cs, (fun d => !isWS d) x = true := by
      intro x hx; simp [hnw x (by simp [hx])]
    rw [pySplit_cons_of_neg hc]
    rw [takeWhile_of_all hmem, dropWhile_of_all hmem, pySplit_nil]

/-- The space-joined triple written by the cell and coordinate rows. -/
theorem pySplit_triple {a b c : PStr} (hane : a ≠ []) (hanw : ∀ x ∈ a, isWS x = false)
    (hbne : b ≠ []) (hbnw : ∀ x ∈ b, isWS x = false)
    (hcne : c ≠ []) (hcnw : ∀ x ∈ c, isWS x = false) :
    pySplit (a ++ ' ' :: (b ++ ' ' :: c)) = [a, b, c] := by
  rw [pySplit_token_cons hane hanw, pySplit_token_cons hbne hbnw,
    pySplit_token_single hcne hcnw]

/-- The trailing-space token join written by the counts and occupations lines. -/
def writeTokensSp (ts : List PStr) : PStr := (ts.map (fun t => t ++ [' '])).flatten

theorem pySplit_writeTokensSp {ts : List PStr}
    (h : ∀ t ∈ ts, t ≠ [] ∧ ∀ c ∈ t, isWS c = false) :
    pySplit (writeTokensSp ts) = ts := by
  induction ts with
  | nil => exact pySplit_nil
  | cons t ts ih =>
    have : writeTokensSp (t :: ts) = t ++ ' ' :: writeTokensSp ts := by
      simp [writeTokensSp, List.flatten_cons]
    rw [this, pySplit_token_cons (h t (by simp)).1 (h t (by simp)).2,
      ih (fun x hx => h x (by simp [hx]))]

theorem dropWhile_ws_eq_self {s : PStr} (h : ∀ c ∈ s, isWS c = false) :
    s.dropWhile isWS = s := by
  cases s with
  | nil => rfl
  | cons c cs => exact List.dropWhile_cons_of_neg (by simp [h c (by simp)])

/-- Stripping a string with no whitespace anywhere is the identity. -/
theorem pyStrip_eq_self {s : PStr} (h : ∀ c ∈ s, isWS c = false) : pyStrip s = s := by
  unfold pyStrip
  rw [dropWhile_ws_eq_self h, dropWhile_ws_eq_self (by intro c hc; exact h c (List.mem_reverse.mp hc)),
    List.reverse_reverse]

/-! ### Decimal printing round-trips through the int parser -/

theorem digitVal_digitChr {d : Nat} (h : d < 10) : digitVal (digitChr d) = some d := by
  interval_cases d <;> decide

theorem digitChr_not_ws {d : Nat} (h : d < 10) : isWS (digitChr d) = false := by
  interval_cases d <;> decide

theorem digitChr_ne_plus {d : Nat} (h : d < 10) : digitChr d ≠ '+' := by
  interval_cases d <;> decide

theorem digitChr_ne_minus {d : Nat} (h : d < 10) : digitChr d ≠ '-' := by
  interval_cases d <;> decide

theorem parseDigitsAux_map_digitChr (bs : List Nat) (h : ∀ d ∈ bs, d < 10) (acc : Nat) :
    parseDigitsAux acc (bs.map digitChr) = some (bs.foldl (fun a d => a * 10 + d) acc) := by
  induction bs generalizing acc with
  | nil => rfl
  | cons d ds ih =>
    simp only [List.map_cons, parseDigitsAux, digitVal_digitChr (h d (by simp)),
      List.foldl_cons]
    exact ih (fun x hx => h x (by simp [hx])) _

theorem foldl_reverse_ofDigits (ds : List Nat) (acc : Nat) :
    ds.reverse.foldl (fun a d => a * 10 + d) acc = acc * 10 ^ ds.length + Nat.ofDigits 10 ds := by
  induction ds generalizing acc with
  | nil => simp
  | cons d ds ih =>
    rw [List.reverse_cons, List.foldl_append]
    simp only [List.foldl_cons, List.foldl_nil]
    rw [ih, Nat.ofDigits_cons, List.length_cons, pow_succ]
    ring

theorem decDigitsF_eq_digits : ∀ f n, n ≤ f → decDigitsF f n = Nat.digits 10 n := by
  intro f
  induction f with
  | zero =>
    intro n h
    have : n = 0 := Nat.le_zero.mp h
    subst this
    simp [decDigitsF]
  | succ g ih =>
    intro n h
    by_cases h0 : n = 0
    · subst h0; simp [decDigitsF]
    · rw [decDigitsF, if_neg h0,
        ih (n / 10) (by
          have := Nat.div_lt_self (Nat.pos_of_ne_zero h0) (by norm_num : 1 < 10)
          omega),
        Nat.digits_def' (by norm_num : 1 < 10) (Nat.pos_of_ne_zero h0)]

theorem decDigits_eq_digits (n : Nat) : decDigits n = Nat.digits 10 n :=
  decDigitsF_eq_digits n n le_rfl

theorem digits_reverse_lt (n : Nat) : ∀ d ∈ (decDigits n).reverse, d < 10 := by
  intro d hd
  rw [decDigits_eq_digits] at hd
  exact Nat.digits_lt_base (by norm_num) (List.mem_reverse.mp hd)

theorem natToDec_ne_nil (n : Nat) : natToDec n ≠ [] := by
  by_cases h0 : n = 0
  · subst h0; decide
  · rw [natToDec, if_neg h0, decDigits_eq_digits]
    simp [Nat.digits_ne_nil_iff_ne_zero.mpr h0]

theorem natToDec_not_ws (n : Nat) : ∀ c ∈ natToDec n, isWS c = false := by
  by_cases h0 : n = 0
  · subst h0; decide
  · rw [natToDec, if_neg h0]
    intro c hc
    obtain ⟨d, hd, rfl⟩ := List.mem_map.mp hc
    exact digitChr_not_ws (digits_reverse_lt n d hd)

theorem parseDigits_natToDec (n : Nat) : parseDigits (natToDec n) = some n := by
  by_cases h0 : n = 0
  · subst h0; decide
  · have hne : (decDigits n).reverse ≠ [] := by
      rw [decDigits_eq_digits]
      simp [Nat.digits_ne_nil_iff_ne_zero.mpr h0]
    obtain ⟨b, bs, hb⟩ := List.exists_cons_of_ne_nil hne
    rw [natToDec, if_neg h0, hb, List.map_cons, parseDigits, ← List.map_cons, ← hb,
      parseDigitsAux_map_digitChr _ (digits_reverse_lt n), foldl_reverse_ofDigits,
      decDigits_eq_digits]
    simp [Nat.ofDigits_digits]

theorem pyIntParse_natToDec (n : Nat) : pyIntParse (natToDec n) = some (n : Int) := by
  by_cases h0 : n = 0
  · subst h0; decide
  · have hne : (decDigits n).reverse ≠ [] := by
      rw [decDigits_eq_digits]
      simp [Nat.digits_ne_nil_iff_ne_zero.mpr h0]
    obtain ⟨b, bs, hb⟩ := List.exists_cons_of_ne_nil hne
    have hb10 : b < 10 := digits_reverse_lt n b (by rw [hb]; simp)
    have hdec : natToDec n = digitChr b :: bs.map digitChr := by
      rw [natToDec, if_neg h0, hb, List.map_cons]
    unfold pyIntParse
    rw [pyStrip_eq_self (natToDec_not_ws n), hdec]
    simp only [if_neg (digitChr_ne_plus hb10), if_neg (digitChr_ne_minus hb10)]
    rw [← hdec, parseDigits_natToDec]
    rfl

theorem mapInts_natToDec (ns : List Nat) :
    mapInts (ns.map natToDec) = some (ns.map Int.ofNat) := by
  induction ns with
  | nil => rfl
  | cons n ns ih => simp [mapInts, pyIntParse_natToDec, ih]

theorem mapIntsE_natToDec (ns : List Nat) :
    mapIntsE (ns.map natToDec) = .ok (ns.map Int.ofNat) := by
  induction ns with
  | nil => rfl
  | cons n ns ih =>
    simp only [List.map_cons, mapIntsE, pyIntParse_natToDec, ih]
    rfl

/-! ### The POSCAR round trip -/

/-- Reduction of a successful bind in the `Except` monad. -/
@[simp] theorem except_bind_ok {α β : Type} (a : α) (f : α → Except PyErr β) :
    (Except.ok a >>= f : Except PyErr β) = f a := rfl

/-- Reduction of a failed bind in the `Except` monad. -/
@[simp] theorem except_bind_error {α β : Type} (e : PyErr) (f : α → Except PyErr β) :
    (Except.error e >>= f : Except PyErr β) = Except.error e := rfl

/-- A writable token: non-empty and whitespace-free. -/
@[reducible] def goodToken (t : PStr) : Prop := t ≠ [] ∧ ∀ c ∈ t, isWS c = false

/-- A well-formed written row: three good tokens. -/
@[reducible] def goodRow (r : PStr × PStr × PStr) : Prop :=
  goodToken r.1 ∧ goodToken r.2.1 ∧ goodToken r.2.2

theorem cellRowOf_written {r : PStr × PStr × PStr} (h : goodRow r) :
    cellRowOf (r.1 ++ ' ' :: (r.2.1 ++ ' ' :: r.2.2)) = .ok [r.1, r.2.1, r.2.2] := by
  obtain ⟨⟨h1, h1w⟩, ⟨h2, h2w⟩, h3, h3w⟩ := h
  unfold cellRowOf
  rw [pySplit_pyStrip, pySplit_triple h1 h1w h2 h2w h3 h3w]
  simp

theorem readCoords_written (coords : List (PStr × PStr × PStr))
    (hg : ∀ r ∈ coords, goodRow r) (rest : Lines) :
    readCoords none coords.length
      ((coords.map (fun r => r.1 ++ ' ' :: (r.2.1 ++ ' ' :: r.2.2))) ++ rest) =
      .ok (coords.map (fun r => [r.1, r.2.1, r.2.2]), rest) := by
  induction coords with
  | nil => rfl
  | cons r rs ih =>
    obtain ⟨⟨h1, h1w⟩, ⟨h2, h2w⟩, h3, h3w⟩ := hg r (by simp)
    simp only [List.map_cons, List.length_cons, List.cons_append, readCoords, nextLine,
      except_bind_ok]
    rw [pySplit_pyStrip, pySplit_triple h1 h1w h2 h2w h3 h3w]
    rw [ih (fun x hx => hg x (by simp [hx]))]
    simp [pyStrip_eq_self h1w, pyStrip_eq_self h2w, pyStrip_eq_self h3w]

theorem mapOccs_of_isSome {os : List PStr} (h : ∀ o ∈ os, (ptNumbers o).isSome) :
    mapOccs os = .ok (os.map (fun o => (ptNumbers o).getD 0)) := by
  induction os with
  | nil => rfl
  | cons o os ih =>
    obtain ⟨v, hv⟩ := Option.isSome_iff_exists.mp (h o (by simp))
    simp only [mapOccs, hv, List.map_cons]
    rw [ih (fun x hx => h x (by simp [hx]))]
    rw [except_bind_ok]
    simp [hv]

theorem mapInts_cons_none {o : PStr} {os : List PStr} (h : pyIntParse o = none) :
    mapInts (o :: os) = none := by
  simp [mapInts, h]

theorem sum_map_intCast (counts : List Nat) :
    (counts.map Int.ofNat).sum = (counts.sum : Int) := by
  induction counts with
  | nil => rfl
  | cons n ns ih =>
    rw [List.map_cons, List.sum_cons, List.sum_cons, ih, Int.ofNat_eq_natCast]
    push_cast
    ring

/-- C1 (amended): parsing a record written by `write_poscar` from good tokens
reproduces the counts, the cell tokens and the coordinate tokens exactly (so
the corresponding exact rational values are equal), while the coordinate-type
flag comes back negated: `write_poscar` writes `D` for reduced and `K` for
cartesian, but `poscar_to_strs` sets `coords_reduced` exactly on a
`C`/`c`/`K`/`k` first character. -/
theorem C1_poscar_roundtrip
    (cell coords : List (PStr × PStr × PStr)) (flag : Bool) (counts : List Nat)
    (occupations : List PStr) (comment scale : PStr) (v : ℚ)
    (hcell3 : cell.length = 3)
    (hcellg : ∀ r ∈ cell, goodRow r)
    (hcoordg : ∀ r ∈ coords, goodRow r)
    (_hcpos : ∀ n ∈ counts, 0 < n)
    (hcne : counts ≠ [])
    (hsum : counts.sum = coords.length)
    (hlen : occupations.length = counts.length)
    (hoccg : ∀ o ∈ occupations, goodToken o)
    (hoccint : ∀ o ∈ occupations, pyIntParse o = none)
    (hocct : ∀ o ∈ occupations, (ptNumbers o).isSome)
    (hscale : pyFloatParse scale = some v) (hv : 0 ≤ v)
    (hscaleg : ∀ c ∈ scale, isWS c = false) :
    poscar_to_strs (write_poscar cell coords flag counts occupations comment scale none) none =
      .ok ({ cell := cell.map (fun r => [r.1, r.2.1, r.2.2]),
             scale := some scale, vol := none,
             coords := coords.map (fun r => [r.1, r.2.1, r.2.2]),
             coords_reduced := !flag,
             counts := counts.map Int.ofNat,
             occupations := occupations.map (fun o => (ptNumbers o).getD 0),
             comment := pyStrip comment }, []) := by
  obtain ⟨r1, r2, r3, rfl⟩ := List.length_eq_three.mp hcell3
  obtain ⟨o1, os, hocc_eq⟩ : ∃ o1 os, occupations = o1 :: os := by
    cases h : occupations with
    | nil =>
      rw [h] at hlen
      exact absurd (List.eq_nil_of_length_eq_zero hlen.symm) hcne
    | cons a l => exact ⟨a, l, rfl⟩
  have hmi : mapInts occupations = none := by
    rw [hocc_eq]
    exact mapInts_cons_none (hoccint o1 (by simp [hocc_eq]))
  have hcg : ∀ t ∈ counts.map natToDec, t ≠ [] ∧ ∀ c ∈ t, isWS c = false := by
    intro t ht
    obtain ⟨n, _, rfl⟩ := List.mem_map.mp ht
    exact ⟨natToDec_ne_nil n, natToDec_not_ws n⟩
  have hog : ∀ t ∈ occupations, t ≠ [] ∧ ∀ c ∈ t, isWS c = false := fun t ht => hoccg t ht
  have hcoordsnil : coords.map (fun r => r.1 ++ ' ' :: (r.2.1 ++ ' ' :: r.2.2)) =
      coords.map (fun r => r.1 ++ ' ' :: (r.2.1 ++ ' ' :: r.2.2)) ++ [] :=
    (List.append_nil _).symm
  cases flag with
  | true =>
    have hw : write_poscar [r1, r2, r3] coords true counts occupations comment scale none =
        comment :: scale :: (r1.1 ++ ' ' :: (r1.2.1 ++ ' ' :: r1.2.2)) ::
          (r2.1 ++ ' ' :: (r2.2.1 ++ ' ' :: r2.2.2)) ::
          (r3.1 ++ ' ' :: (r3.2.1 ++ ' ' :: r3.2.2)) ::
          writeTokensSp occupations ::
          writeTokensSp (counts.map natToDec) ::
          ['D'] ::
          coords.map (fun r => r.1 ++ ' ' :: (r.2.1 ++ ' ' :: r.2.2)) := by
      simp [write_poscar, writeTokensSp, List.take_of_length_le (le_of_eq hlen),
        List.map_map, Function.comp_def]
    rw [hw]
    unfold poscar_to_strs
    simp only [nextLine, except_bind_ok, pyStrip_eq_self hscaleg, hscale,
      cellRowOf_written (hcellg r1 (by simp)), cellRowOf_written (hcellg r2 (by simp)),
      cellRowOf_written (hcellg r3 (by simp)),
      pySplit_pyStrip, pySplit_writeTokensSp hog, pySplit_writeTokensSp hcg, hmi,
      mapIntsE_natToDec, mapOccs_of_isSome hocct,
      if_neg (not_lt.mpr hv)]
    simp only [except_bind_ok, sum_map_intCast, Int.toNat_natCast, hsum,
      show pyStrip ['D'] = ['D'] from rfl]
    rw [hcoordsnil, readCoords_written coords hcoordg]
    simp
  | false =>
    have hw : write_poscar [r1, r2, r3] coords false counts occupations comment scale none =
        comment :: scale :: (r1.1 ++ ' ' :: (r1.2.1 ++ ' ' :: r1.2.2)) ::
          (r2.1 ++ ' ' :: (r2.2.1 ++ ' ' :: r2.2.2)) ::
          (r3.1 ++ ' ' :: (r3.2.1 ++ ' ' :: r3.2.2)) ::
          writeTokensSp occupations ::
          writeTokensSp (counts.map natToDec) ::
          ['K'] ::
          coords.map (fun r => r.1 ++ ' ' :: (r.2.1 ++ ' ' :: r.2.2)) := by
      simp [write_poscar, writeTokensSp, List.take_of_length_le (le_of_eq hlen),
        List.map_map, Function.comp_def]
    rw [hw]
    unfold poscar_to_strs
    simp only [nextLine, except_bind_ok, pyStrip_eq_self hscaleg, hscale,
      cellRowOf_written (hcellg r1 (by simp)), cellRowOf_written (hcellg r2 (by simp)),
      cellRowOf_written (hcellg r3 (by simp)),
      pySplit_pyStrip, pySplit_writeTokensSp hog, pySplit_writeTokensSp hcg, hmi,
      mapIntsE_natToDec, mapOccs_of_isSome hocct,
      if_neg (not_lt.mpr hv)]
    simp only [except_bind_ok, sum_map_intCast, Int.toNat_natCast, hsum,
      show pyStrip ['K'] = ['K'] from rfl]
    rw [hcoordsnil, readCoords_written coords hcoordg]
    simp

/-! ### Stream exhaustion -/

theorem readCoords_exhausted (d : Option Nat) :
    ∀ (k : Nat) (ls : Lines), ls.length < k → readCoords d k ls = .error .stopIteration := by
  intro k
  induction k with
  | zero => intro ls h; omega
  | succ k ih =>
    intro ls h
    match ls with
    | [] => rfl
    | l :: ls' =>
      simp only [readCoords, nextLine, except_bind_ok]
      rw [ih ls' (by simpa using h)]
      rfl

/-- C9: a POSCAR stream laid out as comment, scale, three cell rows, a numeric
counts line, a coordinate-type line and `sum(counts)` coordinate lines, cut
off after any prefix of fewer lines, makes `poscar_to_strs` fail with the
propagated iteration-exhaustion error (`StopIteration`); no partial structure
is returned. -/
theorem C9_stream_exhaustion
    (comment scaleLine cl1 cl2 cl3 countsLine ctLine : PStr)
    (coordLines : Lines) (cs : List Int) (v : ℚ) (d : Option Nat)
    (hscale : pyFloatParse (pyStrip scaleLine) = some v)
    (h1 : (pySplit (pyStrip cl1)).length ≤ 3)
    (h2 : (pySplit (pyStrip cl2)).length ≤ 3)
    (h3 : (pySplit (pyStrip cl3)).length ≤ 3)
    (hcounts : mapInts (pySplit (pyStrip countsLine)) = some cs)
    (hctne : pyStrip ctLine ≠ [])
    (hctS : ∀ c ∈ (pyStrip ctLine).take 1, c ≠ 'S' ∧ c ≠ 's')
    (hN : coordLines.length = (cs.sum).toNat) :
    ∀ n < 7 + coordLines.length,
      poscar_to_strs
        (([comment, scaleLine, cl1, cl2, cl3, countsLine, ctLine] ++ coordLines).take n) d
        = .error .stopIteration := by
  obtain ⟨c0, crest, hctEq⟩ := List.exists_cons_of_ne_nil hctne
  obtain ⟨hcS, hcs⟩ := hctS c0 (by rw [hctEq]; simp)
  intro n hn
  match n with
  | 0 => rfl
  | 1 => rfl
  | 2 =>
    simp only [List.take, List.cons_append, poscar_to_strs, nextLine, except_bind_ok,
      hscale, except_bind_error]
  | 3 =>
    simp only [List.take, List.cons_append, poscar_to_strs, nextLine, except_bind_ok,
      hscale, cellRowOf, except_bind_error]
    rw [if_pos h1]
    rfl
  | 4 =>
    simp only [List.take, List.cons_append, poscar_to_strs, nextLine, except_bind_ok,
      hscale, cellRowOf, except_bind_error]
    rw [if_pos h1, if_pos h2]
    rfl
  | 5 =>
    simp only [List.take, List.cons_append, poscar_to_strs, nextLine, except_bind_ok,
      hscale, cellRowOf, except_bind_error]
    rw [if_pos h1, if_pos h2, if_pos h3]
    rfl
  | 6 =>
    simp only [List.take, List.cons_append, poscar_to_strs, nextLine, except_bind_ok,
      hscale, cellRowOf, except_bind_error, hcounts]
    rw [if_pos h1, if_pos h2, if_pos h3]
    rfl
  | (m + 7) =>
    have hm : m < coordLines.length := by omega
    simp only [List.take, List.cons_append, List.nil_append, poscar_to_strs, nextLine,
      except_bind_ok, hscale, cellRowOf, except_bind_error, hcounts, hctEq]
    rw [if_pos h1]
    try simp only [except_bind_ok]
    rw [if_pos h2]
    try simp only [except_bind_ok]
    rw [if_pos h3]
    try simp only [except_bind_ok]
    rw [if_neg (by simp [hcS, hcs] : ¬(c0 = 'S' ∨ c0 = 's'))]
    try simp only [except_bind_ok]
    rw [readCoords_exhausted d _ _ (by
      rw [List.length_take]
      omega)]
    rfl

/-! ### Magnetic-configuration enumeration -/

/-- The fixed reference list of magnetic species (`magions`). -/
def magions : List String :=
  ["Ag", "Au", "Cd", "Ce", "Co", "Cr", "Cu", "Dy", "Er", "Eu", "Fe", "Gd", "Hf",
   "Hg", "Ho", "Ir", "La", "Lu", "Mn", "Mo", "Nb", "Nd", "Ni", "Os", "Pa", "Pd",
   "Pm", "Pr", "Pt", "Re", "Rh", "Ru", "Sc", "Sm", "Ta", "Tb", "Tc", "Th", "Ti",
   "Tm", "U", "V", "W", "Y", "Yb", "Zn", "Zr"]

/-- The dual-magnetization table `dualmag`. -/
def dualmag (s : String) : Option (List String) :=
  if s = "O" then some ["Co"]
  else if s = "S" then some ["Mn", "Fe", "Cr", "Co"]
  else none

/-- `is_dualmagnetic`: true when some species of the ion list has a `dualmag`
entry that contains this ion (the Python loop over indices, as an `any`). -/
def is_dualmagnetic (ion : String) (ionlist : List String) : Bool :=
  ionlist.any (fun other =>
    match dualmag other with
    | some l => l.contains ion
    | none => false)

/-- The body of `magnetization_recurse` after reversing the index list:
Python's `dualmags.pop()` removes the LAST collected index first, so
processing the reversed list front to back is the faithful recursion order.
At each index the high branch is produced first, then the low branch, and the
two leaf lists are concatenated. -/
def mr_rev {α : Type} : List (Option α) → List Nat → α → α → List (List (Option α))
  | basemags, [], _, _ => [basemags]
  | basemags, d :: ds, high, low =>
    mr_rev (basemags.set d (some high)) ds high low ++
    mr_rev (basemags.set d (some low)) ds high low

/-- `magnetization_recurse`.  (`list(basemags)` copies in Python become the
persistent `List.set`.) -/
def magnetization_recurse {α : Type} (basemags : List (Option α)) (dualmags : List Nat)
    (high low : α) : List (List (Option α)) :=
  mr_rev basemags dualmags.reverse high low

/-- The dual index list accumulated by `get_magnetizations` (collected in
increasing index order). -/
def dualIndices (ionlist : List String) : List Nat :=
  (List.range ionlist.length).filter
    (fun i => is_dualmagnetic (ionlist.getD i "") ionlist)

/-- The base assignment accumulated by `get_magnetizations`: `None` at dual
ions, otherwise high for species in `magions`, low otherwise. -/
def baseMags {α : Type} (ionlist : List String) (high low : α) : List (Option α) :=
  ionlist.map (fun ion =>
    if is_dualmagnetic ion ionlist then none
    else if magions.contains ion then some high else some low)

/-- `get_magnetizations`. -/
def get_magnetizations {α : Type} (ionlist : List String) (high low : α) :
    List (List (Option α)) :=
  magnetization_recurse (baseMags ionlist high low) (dualIndices ionlist) high low

/-- The assignment at leaf number `m` of the enumeration: bit `j` of `m`
decides dual position `ds[j]` (`0` bit = high), which is exactly depth-first
high-branch-first enumeration with the last dual index as the outermost
branch. -/
def assignBits {α : Type} : List (Option α) → List Nat → α → α → Nat → List (Option α)
  | b, [], _, _, _ => b
  | b, d :: ds, high, low, m =>
    assignBits (b.set d (some (if m % 2 = 0 then high else low))) ds high low (m / 2)

theorem assignBits_append_single {α : Type} (xs : List Nat) (e : Nat)
    (b : List (Option α)) (high low : α) (m : Nat) :
    assignBits b (xs ++ [e]) high low m =
      (assignBits b xs high low m).set e
        (some (if (m / 2 ^ xs.length) % 2 = 0 then high else low)) := by
  induction xs generalizing b m with
  | nil => simp [assignBits]
  | cons x xs ih =>
    rw [List.cons_append, assignBits, assignBits, ih, List.length_cons]
    rw [show m / 2 / 2 ^ xs.length = m / 2 ^ (xs.length + 1) from by
      rw [Nat.div_div_eq_div_mul, pow_succ, mul_comm 2 (2 ^ xs.length)]]

theorem assignBits_set_comm {α : Type} (xs : List Nat) (e : Nat) (he : e ∉ xs)
    (b : List (Option α)) (x : Option α) (high low : α) (m : Nat) :
    assignBits (b.set e x) xs high low m = (assignBits b xs high low m).set e x := by
  induction xs generalizing b m with
  | nil => rfl
  | cons y ys ih =>
    have hey : e ≠ y := fun h => he (by simp [h])
    simp only [assignBits]
    rw [List.set_comm _ _ _ hey, ih (fun h => he (by simp [h]))]

theorem assignBits_mod {α : Type} (xs : List Nat) (b : List (Option α))
    (high low : α) (m t : Nat) :
    assignBits b xs high low (m + 2 ^ xs.length * t) = assignBits b xs high low m := by
  induction xs generalizing b m t with
  | nil => rfl
  | cons x xs ih =>
    simp only [assignBits, List.length_cons]
    have hmod : (m + 2 ^ (xs.length + 1) * t) % 2 = m % 2 := by
      rw [show 2 ^ (xs.length + 1) * t = (2 ^ xs.length * t) * 2 from by ring,
        Nat.add_mul_mod_self_right]
    have hdiv : (m + 2 ^ (xs.length + 1) * t) / 2 = m / 2 + 2 ^ xs.length * t := by
      rw [show 2 ^ (xs.length + 1) * t = (2 ^ xs.length * t) * 2 from by ring,
        Nat.add_mul_div_right _ _ (by norm_num : 0 < 2)]
    simp only [hmod, hdiv]
    rw [ih]

theorem mr_rev_closed_form {α : Type} (high low : α) :
    ∀ (es : List Nat) (b : List (Option α)), es.Nodup →
      mr_rev b es high low =
        (List.range (2 ^ es.length)).map (fun m => assignBits b es.reverse high low m) := by
  intro es
  induction es with
  | nil => intro b _; simp [mr_rev, assignBits]
  | cons e es ih =>
    intro b hnd
    have hes : es.Nodup := hnd.of_cons
    have hee : e ∉ es := (List.nodup_cons.mp hnd).1
    have heer : e ∉ es.reverse := by simpa using hee
    have hrev : (e :: es).reverse = es.reverse ++ [e] := by simp
    rw [mr_rev, ih _ hes, ih _ hes, List.length_cons, pow_succ, mul_two, List.range_add,
      List.map_append, List.map_map]
    congr 1
    · apply List.map_congr_left
      intro m hm
      have hmlt : m < 2 ^ es.length := List.mem_range.mp hm
      rw [hrev, assignBits_append_single, List.length_reverse, Nat.div_eq_of_lt hmlt,
        if_pos (by decide : (0 : Nat) % 2 = 0), assignBits_set_comm _ _ heer]
    · apply List.map_congr_left
      intro m hm
      have hmlt : m < 2 ^ es.length := List.mem_range.mp hm
      simp only [Function.comp]
      rw [hrev, assignBits_append_single, List.length_reverse]
      have hq : (2 ^ es.length + m) / 2 ^ es.length = 1 := by
        rw [Nat.add_comm, Nat.add_div_right m (pow_pos (by norm_num) _),
          Nat.div_eq_of_lt hmlt]
      rw [hq, if_neg (by decide : ¬((1 : Nat) % 2 = 0))]
      have hmm : 2 ^ es.length + m = m + 2 ^ es.reverse.length * 1 := by
        rw [List.length_reverse]
        ring
      rw [hmm, assignBits_mod, assignBits_set_comm _ _ heer]

theorem magnetization_recurse_closed_form {α : Type} (b : List (Option α))
    (ds : List Nat) (high low : α) (hnd : ds.Nodup) :
    magnetization_recurse b ds high low =
      (List.range (2 ^ ds.length)).map (fun m => assignBits b ds high low m) := by
  rw [magnetization_recurse, mr_rev_closed_form high low ds.reverse b (by simpa using hnd)]
  simp

theorem dualIndices_nodup (ionlist : List String) : (dualIndices ionlist).Nodup :=
  (List.nodup_range _).filter _

/-- C5: the magnetic enumerator.  The output is exactly the depth-first,
high-branch-first enumeration over the dual indices (`assignBits` spells out
the branch order: leaf `m` assigns dual position `j` high exactly when bit `j`
of `m` is clear, the last dual index forming the outermost branch), its length
is `2 ^ k` for `k` dual-flagged ions, and with no dual ions the single output
is the direct classification — high for species in `magions`, low otherwise —
with no unresolved (`none`) entries. -/
theorem C5_magnetic_enumerator {α : Type} (ionlist : List String) (high low : α) :
    get_magnetizations ionlist high low =
      (List.range (2 ^ (dualIndices ionlist).length)).map
        (fun m => assignBits (baseMags ionlist high low) (dualIndices ionlist) high low m) ∧
    (get_magnetizations ionlist high low).length = 2 ^ (dualIndices ionlist).length ∧
    (dualIndices ionlist = [] →
      get_magnetizations ionlist high low =
        [ionlist.map (fun ion => if magions.contains ion then some high else some low)] ∧
      ∀ mags ∈ get_magnetizations ionlist high low, ∀ x ∈ mags, x.isSome) := by
  have hcf := magnetization_recurse_closed_form (baseMags ionlist high low)
    (dualIndices ionlist) high low (dualIndices_nodup ionlist)
  refine ⟨hcf, ?_, ?_⟩
  · rw [get_magnetizations, hcf]
    simp
  · intro hnil
    have hnodual : ∀ ion ∈ ionlist, is_dualmagnetic ion ionlist = false := by
      intro ion hion
      obtain ⟨i, hi, rfl⟩ := List.getElem_of_mem hion
      have : i ∉ dualIndices ionlist := by rw [hnil]; simp
      rw [dualIndices, List.mem_filter] at this
      push_neg at this
      have hmem : i ∈ List.range ionlist.length := List.mem_range.mpr hi
      have := this hmem
      rw [List.getD_eq_getElem?_getD, List.getElem?_eq_getElem hi] at this
      simpa using this
    have hbase : baseMags ionlist high low =
        ionlist.map (fun ion => if magions.contains ion then some high else some low) := by
      apply List.map_congr_left
      intro ion hion
      rw [hnodual ion hion]
      simp
    have hget : get_magnetizations ionlist high low = [baseMags ionlist high low] := by
      rw [get_magnetizations, hnil, magnetization_recurse, List.reverse_nil, mr_rev]
    constructor
    · rw [hget, hbase]
    · intro mags hmags x hx
      rw [hget] at hmags
      simp only [List.mem_singleton] at hmags
      subst hmags
      rw [hbase] at hx
      obtain ⟨ion, _, rfl⟩ := List.mem_map.mp hx
      split <;> rfl

/-! ### Pseudopotential resolution -/

/-- The pseudopotential library, modelled (as the claim prescribes) as the
set of existing species+suffix subdirectories together with their POTCAR
contents.  `potcar dir = none` models a directory whose POTCAR cannot be
read; the Python `except: raise` re-raises that error. -/
structure PPLib where
  dirExists : String → Bool
  potcar : String → Option String

/-- The failure modes of `get_pseudopotential`. -/
inductive PPErr
  | notFound (msg : String)
  | readError
deriving DecidableEq, Repr

/-- The fixed suffix priority order of `get_pseudopotential`. -/
def pp_priorities : List String := ["_3", "_2", "_d", "_pv", "_sv", "", "_h", "_s"]

/-- The message of the final `raise`: it names the species. -/
def pp_notFoundMsg (species : String) : String :=
  "httk.iface.vasp_if.get_pseudopotentials: could not find a suitable pseudopotential for "
    ++ species

/-- The suffix loop of `get_pseudopotential`. -/
def get_pp_go (lib : PPLib) (species : String) : List String → Except PPErr String
  | [] => .error (.notFound (pp_notFoundMsg species))
  | p :: ps =>
    if lib.dirExists (species ++ p) then
      match lib.potcar (species ++ p) with
      | some data => .ok data
      | none => .error .readError
    else get_pp_go lib species ps

/-- `get_pseudopotential` over an explicit library.  The `poscarspath`
configuration/environment fallback chain selects which library is consulted
and is outside this model (the claim quantifies over the library itself). -/
def get_pseudopotential (lib : PPLib) (species : String) : Except PPErr String :=
  get_pp_go lib species pp_priorities

theorem get_pp_go_first (lib : PPLib) (species : String) :
    ∀ (l : List String) (i : Nat) (hi : i < l.length) (content : String),
      lib.dirExists (species ++ l.get ⟨i, hi⟩) = true →
      (∀ (j : Nat) (hj : j < l.length), j < i →
        lib.dirExists (species ++ l.get ⟨j, hj⟩) = false) →
      lib.potcar (species ++ l.get ⟨i, hi⟩) = some content →
      get_pp_go lib species l = .ok content := by
  intro l
  induction l with
  | nil => intro i hi; simp at hi
  | cons p ps ih =>
    intro i hi content hex hearlier hpot
    match i with
    | 0 =>
      simp only [List.get] at hex hpot
      rw [get_pp_go, if_pos hex, hpot]
    | k + 1 =>
      have h0 : lib.dirExists (species ++ p) = false :=
        hearlier 0 (by simp) (by omega)
      rw [get_pp_go, if_neg (by simp [h0])]
      exact ih k (by simpa using hi) content hex
        (fun j hj hjk => hearlier (j + 1) (by simpa using hj) (by omega)) hpot

theorem get_pp_go_not_found (lib : PPLib) (species : String) :
    ∀ (l : List String), (∀ p ∈ l, lib.dirExists (species ++ p) = false) →
      get_pp_go lib species l = .error (.notFound (pp_notFoundMsg species)) := by
  intro l
  induction l with
  | nil => intro _; rfl
  | cons p ps ih =>
    intro h
    rw [get_pp_go, if_neg (by simp [h p (by simp)])]
    exact ih fun q hq => h q (by simp [hq])

/-- C6: `get_pseudopotential` returns the POTCAR content of the first suffix
in the order `_3, _2, _d, _pv, _sv, "", _h, _s` whose subdirectory exists —
never a later one when an earlier one exists — and when no suffix matches it
fails with a not-found error whose message names the species. -/
theorem C6_pseudopotential_priority (lib : PPLib) (species : String) :
    (∀ (i : Nat) (hi : i < pp_priorities.length) (content : String),
      lib.dirExists (species ++ pp_priorities.get ⟨i, hi⟩) = true →
      (∀ (j : Nat) (hj : j < pp_priorities.length), j < i →
        lib.dirExists (species ++ pp_priorities.get ⟨j, hj⟩) = false) →
      lib.potcar (species ++ pp_priorities.get ⟨i, hi⟩) = some content →
      get_pseudopotential lib species = .ok content) ∧
    ((∀ p ∈ pp_priorities, lib.dirExists (species ++ p) = false) →
      get_pseudopotential lib species =
        .error (.notFound (pp_notFoundMsg species))) := by
  constructor
  · intro i hi content hex hearlier hpot
    exact get_pp_go_first lib species pp_priorities i hi content hex hearlier hpot
  · intro h
    exact get_pp_go_not_found lib species pp_priorities h

/-! ### OUTCAR energy scan -/

/-- Items of the energy regular expression: literal text, ` *` (a space run),
and `([^ ]+)` (a greedy non-space capture group). -/
inductive RItem
  | lit (s : PStr)
  | sp
  | cap
deriving Repr

/-- Longest-first attempts for a greedy `[^ ]+` capture: try capture length
`k` first, then backtrack to shorter non-empty lengths. -/
def capTry (next : PStr → Option (List PStr)) (s : PStr) : Nat → Option (List PStr)
  | 0 => none
  | k + 1 =>
    match next (s.drop (k + 1)) with
    | some caps => some (s.take (k + 1) :: caps)
    | none => capTry next s k

/-- Modelled from the spec: the fragment of Python `re` matching that the
energy pattern needs, anchored at both ends.  ` *` may consume its maximal
space run outright because no following item of the pattern can match a
space (`lit` items start with non-space characters, `[^ ]+` excludes the
space, and `$` requires the end), so max-munch is equivalent to the greedy
backtracking semantics; the capture groups do backtrack, longest first. -/
def rmatch : List RItem → PStr → Option (List PStr)
  | [], s => if s.isEmpty then some [] else none
  | .lit t :: xs, s => if t.isPrefixOf s then rmatch xs (s.drop t.length) else none
  | .sp :: xs, s => rmatch xs (s.dropWhile (fun c => c = ' '))
  | .cap :: xs, s => capTry (rmatch xs) s ((s.takeWhile (fun c => !(c = ' '))).length)

/-- The compiled form of
`^ *energy *without *entropy= *([^ ]+) *energy\(sigma->0\) *= *([^ ]+) *$`. -/
def energyPattern : List RItem :=
  [.sp, .lit "energy".data, .sp, .lit "without".data, .sp, .lit "entropy=".data,
   .sp, .cap, .sp, .lit "energy(sigma->0)".data, .sp, .lit "=".data, .sp, .cap, .sp]

/-- The attributes `OutcarReader.parse` assigns on the reader.  A Python
object only carries attributes that some code path assigned:
`final_energy_with_entropy`/`final_energy` are set only when the energy rule
fires (absence is `none`), and `parsed` is set at the end.  The `final` flag
lives only in the local `results` dict of `parse` and is never stored on the
reader, so the reader carries no such field. -/
structure OutcarReader where
  final_energy_with_entropy : Option PStr := none
  final_energy : Option PStr := none
  parsed : Bool := false
deriving DecidableEq, Repr

/-- One line of the `micro_pyawk` scan (modelled from the spec: an ordered
rule list, every rule whose pattern matches the line fires its action).  The
state pairs the reader attributes with `results['final']`. -/
def outcarStep (st : OutcarReader × Bool) (line : PStr) : OutcarReader × Bool :=
  let st1 :=
    match rmatch energyPattern line with
    | some (x :: y :: _) =>
      ({ st.1 with final_energy_with_entropy := some x, final_energy := some y }, st.2)
    | _ => st
  if containsSub "FREE ENERGIE".data line then (st1.1, true) else st1

/-- `OutcarReader.parse`: scan all lines; first component is the reader
state, second the local `results['final']` value. -/
def OutcarReader.parse (lines : Lines) : OutcarReader × Bool :=
  lines.foldl outcarStep ({}, false)

/-- `read_outcar`: builds the reader.  `parse` stores only `self.parsed`;
the `results` dict — and with it the computed `final` flag — is discarded. -/
def read_outcar (lines : Lines) : OutcarReader :=
  { (OutcarReader.parse lines).1 with parsed := true }

/-- The `results['final']` value computed inside `parse` and then dropped. -/
def outcarResultsFinal (lines : Lines) : Bool := (OutcarReader.parse lines).2

/-! ### K-point estimation and the negative-determinant fix -/

/-- A 3-vector of exact rationals (a `FracVector` row). -/
structure Vec3 where
  x : ℚ
  y : ℚ
  z : ℚ
deriving DecidableEq, Repr

/-- A 3×3 basis of exact rationals. -/
structure Mat3 where
  r1 : Vec3
  r2 : Vec3
  r3 : Vec3
deriving DecidableEq, Repr

def dot (a b : Vec3) : ℚ := a.x * b.x + a.y * b.y + a.z * b.z

def cross (a b : Vec3) : Vec3 :=
  ⟨a.y * b.z - a.z * b.y, a.z * b.x - a.x * b.z, a.x * b.y - a.y * b.x⟩

def smul (c : ℚ) (v : Vec3) : Vec3 := ⟨c * v.x, c * v.y, c * v.z⟩

/-- Modelled from the spec: `FracVector.det` of a 3×3 basis. -/
def det3 (m : Mat3) : ℚ := dot m.r1 (cross m.r2 m.r3)

/-- Modelled from the spec: `FracVector.lengthsqr`, the squared length. -/
def lengthsqr (v : Vec3) : ℚ := dot v v

/-- Modelled from the spec: `FracVector.reciprocal`, the reciprocal basis,
rows `rᵢ` with `rᵢ · aⱼ = δᵢⱼ` (exact rational arithmetic; `.simplify()` is
the identity on reduced rationals). -/
def reciprocal (m : Mat3) : Mat3 :=
  let d := det3 m
  ⟨smul (1 / d) (cross m.r2 m.r3),
   smul (1 / d) (cross m.r3 m.r1),
   smul (1 / d) (cross m.r1 m.r2)⟩

/-- One axis of `calculate_kpoints`:
`int(math.ceil(math.sqrt(lengthsqr)*dens+0.5)+0.1)` in the exact-real model
of the float arithmetic; for a nonnegative argument, truncating
`ceil(x)+0.1` returns exactly `⌈x⌉`, so the axis count is
`⌈sqrt(lengthsqr)·dens + 1/2⌉`. -/
noncomputable def kptAxis (lsq dens : ℚ) : Int :=
  ⌈Real.sqrt (lsq : ℝ) * (dens : ℝ) + 1 / 2⌉

/-- `calculate_kpoints`: singular-cell error on zero determinant, otherwise
the per-axis counts floored at 1. -/
noncomputable def calculate_kpoints (basis : Mat3) (dens : ℚ) : Except PyErr (Int × Int × Int) :=
  let celldet := det3 basis
  let cellvol := |celldet|
  if cellvol = 0 then .error .singular
  else
    let recip := reciprocal basis
    .ok (max 1 (kptAxis (lengthsqr recip.r1) dens),
         max 1 (kptAxis (lengthsqr recip.r2) dens),
         max 1 (kptAxis (lengthsqr recip.r3) dens))

/-- The cubic cell of edge `a`. -/
def diagMat (a : ℚ) : Mat3 := ⟨⟨a, 0, 0⟩, ⟨0, a, 0⟩, ⟨0, 0, a⟩⟩

/-- C7: `calculate_kpoints` fails with the singular-cell error exactly when
the determinant is zero; otherwise it returns the triple of per-axis counts
`max 1 ⌈‖bᵢ*‖·dens + 1/2⌉`, each an integer at least 1; and on a cubic cell
all three components are equal. -/
theorem C7_calculate_kpoints (basis : Mat3) (dens : ℚ) :
    (det3 basis = 0 → calculate_kpoints basis dens = .error .singular) ∧
    (det3 basis ≠ 0 →
      calculate_kpoints basis dens =
        .ok (max 1 (kptAxis (lengthsqr (reciprocal basis).r1) dens),
             max 1 (kptAxis (lengthsqr (reciprocal basis).r2) dens),
             max 1 (kptAxis (lengthsqr (reciprocal basis).r3) dens)) ∧
      (1 : Int) ≤ max 1 (kptAxis (lengthsqr (reciprocal basis).r1) dens) ∧
      (1 : Int) ≤ max 1 (kptAxis (lengthsqr (reciprocal basis).r2) dens) ∧
      (1 : Int) ≤ max 1 (kptAxis (lengthsqr (reciprocal basis).r3) dens)) ∧
    (∀ a : ℚ, a ≠ 0 → basis = diagMat a →
      ∃ n : Int, calculate_kpoints basis dens = .ok (n, n, n) ∧ 1 ≤ n) := by
  refine ⟨?_, ?_, ?_⟩
  · intro h
    rw [calculate_kpoints]
    simp [h]
  · intro h
    rw [calculate_kpoints]
    rw [if_neg (by simpa using h)]
    exact ⟨rfl, le_max_left _ _, le_max_left _ _, le_max_left _ _⟩
  · rintro a ha rfl
    have hdet : det3 (diagMat a) = a ^ 3 := by
      simp [det3, diagMat, dot, cross]
      ring
    have hne : det3 (diagMat a) ≠ 0 := by
      rw [hdet]
      exact pow_ne_zero 3 ha
    have h1 : lengthsqr (reciprocal (diagMat a)).r1 = 1 / a ^ 2 := by
      simp only [reciprocal, diagMat, lengthsqr, dot, cross, smul, det3]
      field_simp
      ring
    have h2 : lengthsqr (reciprocal (diagMat a)).r2 = 1 / a ^ 2 := by
      simp only [reciprocal, diagMat, lengthsqr, dot, cross, smul, det3]
      field_simp
      ring
    have h3 : lengthsqr (reciprocal (diagMat a)).r3 = 1 / a ^ 2 := by
      simp only [reciprocal, diagMat, lengthsqr, dot, cross, smul, det3]
      field_simp
      ring
    refine ⟨max 1 (kptAxis (1 / a ^ 2) dens), ?_, le_max_left _ _⟩
    rw [calculate_kpoints]
    rw [if_neg (by simpa using hne)]
    simp only [h1, h2, h3]

/-- Modelled from the spec: `FracVector.normalize`, which brings each
component into `[0, 1)` by subtracting its floor. -/
def fract (q : ℚ) : ℚ := q - ⌊q⌋

def neg3 (v : Vec3) : Vec3 := ⟨-v.x, -v.y, -v.z⟩

def normalize3 (v : Vec3) : Vec3 := ⟨fract v.x, fract v.y, fract v.z⟩

def negMat (m : Mat3) : Mat3 := ⟨neg3 m.r1, neg3 m.r2, neg3 m.r3⟩

/-- The structure fields `structure_to_poscar` consumes.  Selecting the
primitive-cell (`struct.pc`) or unit-cell representation happens in an
external collaborator; the embedding receives the selected basis and reduced
coordinates. -/
structure HStructure where
  uc_basis : Mat3
  uc_reduced_coords : List Vec3
  uc_volume : ℚ
  uc_counts : List Nat
  symbols : List String

/-- `structure_to_poscar`, at the geometry level: the basis and coordinate
rows handed to `write_poscar` (which is called with the reduced flag set and
the volume).  With the fix enabled and a negative determinant the basis is
negated and the coordinates are negated and renormalized. -/
def structure_to_poscar (fix_negative_determinant : Bool) (s : HStructure) :
    Mat3 × List Vec3 :=
  let basis := s.uc_basis
  let coords := s.uc_reduced_coords
  if det3 basis < 0 ∧ fix_negative_determinant then
    (negMat basis, coords.map (fun v => normalize3 (neg3 v)))
  else (basis, coords)

theorem det3_negMat (m : Mat3) : det3 (negMat m) = -det3 m := by
  simp only [det3, negMat, neg3, cross, dot]
  ring

theorem fract_nonneg_lt_one (q : ℚ) : 0 ≤ fract q ∧ fract q < 1 := by
  constructor
  · have := Int.floor_le q
    simp only [fract]
    linarith
  · have := Int.lt_floor_add_one q
    simp only [fract]
    linarith

/-- C8: on a structure whose basis has negative determinant,
`structure_to_poscar` with `fix_negative_determinant = True` writes the
negated basis — whose determinant is strictly positive — and the negated,
renormalized coordinates, every component of which lies in `[0, 1)`. -/
theorem C8_negative_det_fix (s : HStructure) (h : det3 s.uc_basis < 0) :
    0 < det3 (structure_to_poscar true s).1 ∧
    (structure_to_poscar true s).1 = negMat s.uc_basis ∧
    (structure_to_poscar true s).2 =
      s.uc_reduced_coords.map (fun v => normalize3 (neg3 v)) ∧
    ∀ v ∈ (structure_to_poscar true s).2,
      (0 ≤ v.x ∧ v.x < 1) ∧ (0 ≤ v.y ∧ v.y < 1) ∧ (0 ≤ v.z ∧ v.z < 1) := by
  have hsel : structure_to_poscar true s =
      (negMat s.uc_basis, s.uc_reduced_coords.map (fun v => normalize3 (neg3 v))) := by
    rw [structure_to_poscar]
    simp [h]
  refine ⟨?_, by rw [hsel], by rw [hsel], ?_⟩
  · rw [hsel, det3_negMat]
    linarith
  · intro v hv
    rw [hsel] at hv
    obtain ⟨w, _, rfl⟩ := List.mem_map.mp hv
    exact ⟨fract_nonneg_lt_one _, fract_nonneg_lt_one _, fract_nonneg_lt_one _⟩

/-! ### The OUTCAR metadata scanner (`parse_outcar`) -/

/-- The `calc_info` dictionary of `parse_outcar` (Potentials is a list and is
never `None`, so it does not participate in the completeness check). -/
structure CalcInfo where
  Code : Option PStr := none
  Version : Option PStr := none
  Build : Option PStr := none
  ENCUT : Option ℚ := none
  NKPTS : Option Int := none
  XC : Option PStr := none
  Potentials : List PStr := []
  Date : Option PStr := none
  Time : Option PStr := none
  Elapsed : Option ℚ := none
  System : Option PStr := none
  Nodes : Option Int := none
  Cores : Option Int := none
deriving DecidableEq, Repr

/-- `not None in calc_info.values()`: every optional field filled. -/
def CalcInfo.complete (i : CalcInfo) : Bool :=
  i.Code.isSome && i.Version.isSome && i.Build.isSome && i.ENCUT.isSome &&
  i.NKPTS.isSome && i.XC.isSome && i.Date.isSome && i.Time.isSome &&
  i.Elapsed.isSome && i.System.isSome && i.Nodes.isSome && i.Cores.isSome

/-- `re.search('vasp\.\d\.\d\.\d\S+', line)` tested at one position. -/
def vaspReAt (s : PStr) : Bool :=
  "vasp.".data.isPrefixOf s &&
    (match s.drop 5 with
     | d1 :: '.' :: d2 :: '.' :: d3 :: c :: _ =>
       (digitVal d1).isSome && (digitVal d2).isSome && (digitVal d3).isSome && !isWS c
     | _ => false)

/-- `re.search('vasp\.\d\.\d\.\d\S+', line)` as a substring search. -/
def vaspRe : PStr → Bool
  | [] => false
  | c :: cs => vaspReAt (c :: cs) || vaspRe cs

/-- `re.search('POTCAR\S+', line)` tested at one position. -/
def potcarReAt (s : PStr) : Bool :=
  "POTCAR".data.isPrefixOf s &&
    (match s.drop 6 with
     | c :: _ => !isWS c
     | [] => false)

/-- `re.search('POTCAR\S+', line)` as a substring search. -/
def potcarRe : PStr → Bool
  | [] => false
  | c :: cs => potcarReAt (c :: cs) || potcarRe cs

/-- The fixed cores-per-node table `system_cpn`. -/
def system_cpn (s : PStr) : Option Int :=
  if s = "Lumi".data then some 128
  else if s = "Dardel".data then some 128
  else if s = "Tetralith".data then some 32
  else if s = "Sigma".data then some 32
  else none

/-- Python `l[i]` on a token list: `IndexError` when absent. -/
def pyIdx (l : List PStr) (i : Nat) : Except PyErr PStr :=
  match l[i]? with
  | some t => .ok t
  | none => .error .indexError

/-- Python `l[-1]` on a token list. -/
def pyLast (l : List PStr) : Except PyErr PStr :=
  match l.getLast? with
  | some t => .ok t
  | none => .error .indexError

/-- `'.'.join` / `' '.join`. -/
def joinWith (c : Char) (ts : List PStr) : PStr := List.intercalate [c] ts

/-- Python `int(…)` as a raising conversion. -/
def pyIntE (s : PStr) : Except PyErr Int :=
  match pyIntParse s with
  | some v => .ok v
  | none => .error .valueError

/-- Python `float(…)` as a raising conversion. -/
def pyFloatE (s : PStr) : Except PyErr ℚ :=
  match pyFloatParse s with
  | some v => .ok v
  | none => .error .valueError

/-- Python `int(a/b)` for integers: true division then truncation toward
zero. -/
def pyIntTrunc (q : ℚ) : Int := Int.tdiv q.num q.den

/-- Rule 1 of the per-line scan: the vasp version banner. -/
def rule_vasp (info : CalcInfo) (line : PStr) : Except PyErr CalcInfo :=
  if info.Code = none ∧ vaspRe line then do
    let t0 ← pyIdx (pySplit line) 0
    let data := splitOnChar '.' t0
    if data.head? = some "vasp".data then
      .ok { info with Code := some "VASP".data,
                      Version := some (joinWith '.' ((data.drop 1).take 3)),
                      Build := some (data.getLastD []) }
    else .ok info
  else .ok info

/-- Rule 2: POTCAR names (no `None` guard in the source; every match
appends when new). -/
def rule_potcar (info : CalcInfo) (line : PStr) : Except PyErr CalcInfo :=
  if potcarRe line then
    let toks := pySplit line
    let pot := joinWith ' ' (toks.drop (toks.length - 2))
    if info.Potentials.contains pot then .ok info
    else .ok { info with Potentials := info.Potentials ++ [pot] }
  else .ok info

/-- Rule 3: the `executed on` line — system classification, date and time. -/
def rule_exec (info : CalcInfo) (line : PStr) : Except PyErr CalcInfo :=
  if info.System = none ∧ containsSub "executed on".data line then do
    let data := pySplit line
    let d2 ← pyIdx data 2
    let sys := if containsSub "LUMI".data d2 then "Lumi".data
      else if containsSub "TETRALITH".data d2 then "Tetralith".data
      else d2
    let d4 ← pyIdx data 4
    let dl ← pyLast data
    .ok { info with System := some sys, Date := some d4, Time := some dl }
  else .ok info

/-- Rule 4: the `LEXCH` exchange-correlation tag. -/
def rule_xc (info : CalcInfo) (line : PStr) : Except PyErr CalcInfo :=
  if info.XC = none ∧ containsSub "LEXCH".data line then do
    let dl ← pyLast (pySplit line)
    .ok { info with XC := some dl }
  else .ok info

/-- Rule 5: the `running on` core-count line. -/
def rule_cores (info : CalcInfo) (line : PStr) : Except PyErr CalcInfo :=
  if info.Cores = none ∧ containsSub "running on".data line then do
    let d2 ← pyIdx (pySplit line) 2
    let v ← pyIntE d2
    .ok { info with Cores := some v }
  else .ok info

/-- Rule 6: the `ENCUT` cutoff line. -/
def rule_encut (info : CalcInfo) (line : PStr) : Except PyErr CalcInfo :=
  if info.ENCUT = none ∧ containsSub "ENCUT".data line then do
    let d2 ← pyIdx (pySplit line) 2
    let v ← pyFloatE d2
    .ok { info with ENCUT := some v }
  else .ok info

/-- Rule 7: the `NKPTS` line. -/
def rule_nkpts (info : CalcInfo) (line : PStr) : Except PyErr CalcInfo :=
  if info.NKPTS = none ∧ containsSub "NKPTS".data line then do
    let d3 ← pyIdx (pySplit line) 3
    let v ← pyIntE d3
    .ok { info with NKPTS := some v }
  else .ok info

/-- Rule 8: the `Elapsed time` line. -/
def rule_elapsed (info : CalcInfo) (line : PStr) : Except PyErr CalcInfo :=
  if info.Elapsed = none ∧ containsSub "Elapsed time".data line then do
    let dl ← pyLast (pySplit line)
    let v ← pyFloatE dl
    .ok { info with Elapsed := some v }
  else .ok info

/-- Rule 9: once both `Cores` and `System` are known, derive `Nodes` through
the cores-per-node table.  The lookup `system_cpn[calc_info['System']]` is
unguarded: an unknown system raises `KeyError`. -/
def rule_nodes (info : CalcInfo) : Except PyErr CalcInfo :=
  if info.Cores.isSome ∧ info.System.isSome then
    match info.System with
    | some sys =>
      match system_cpn sys with
      | some cpn =>
        match info.Cores with
        | some cores => .ok { info with Nodes := some (pyIntTrunc ((cores : ℚ) / (cpn : ℚ))) }
        | none => .ok info
      | none => .error .keyError
    | none => .ok info
  else .ok info

/-- One line of the `parse_outcar` loop body, rules in source order. -/
def processLine (info : CalcInfo) (line : PStr) : Except PyErr CalcInfo := do
  let i1 ← rule_vasp info line
  let i2 ← rule_potcar i1 line
  let i3 ← rule_exec i2 line
  let i4 ← rule_xc i3 line
  let i5 ← rule_cores i4 line
  let i6 ← rule_encut i5 line
  let i7 ← rule_nkpts i6 line
  let i8 ← rule_elapsed i7 line
  rule_nodes i8

/-- The scan loop: stop early when every field is filled. -/
def po_loop : CalcInfo → Lines → Except PyErr CalcInfo
  | info, [] => .ok info
  | info, l :: ls =>
    if info.complete then .ok info
    else do
      let info2 ← processLine info l
      po_loop info2 ls

/-- `parse_outcar` (`bz2` decompression is transparent in the lines model). -/
def parse_outcar (lines : Lines) : Except PyErr CalcInfo :=
  po_loop {} lines

/-- A line that triggers none of the scanner's patterns. -/
def outcarTriggers (l : PStr) : Bool :=
  vaspRe l || potcarRe l || containsSub "executed on".data l ||
  containsSub "LEXCH".data l || containsSub "running on".data l ||
  containsSub "ENCUT".data l || containsSub "NKPTS".data l ||
  containsSub "Elapsed time".data l

theorem complete_false {i : CalcInfo} (h : i.Code = none) : i.complete = false := by
  simp [CalcInfo.complete, h]

theorem rule_vasp_skip {info : CalcInfo} {line : PStr} (h : vaspRe line = false) :
    rule_vasp info line = .ok info := by
  simp [rule_vasp, h]

theorem rule_potcar_skip {info : CalcInfo} {line : PStr} (h : potcarRe line = false) :
    rule_potcar info line = .ok info := by
  simp [rule_potcar, h]

theorem rule_exec_skip {info : CalcInfo} {line : PStr}
    (h : containsSub "executed on".data line = false) :
    rule_exec info line = .ok info := by
  simp [rule_exec, h]

theorem rule_exec_skip2 {info : CalcInfo} {line : PStr} (h : info.System ≠ none) :
    rule_exec info line = .ok info := by
  simp [rule_exec, h]

theorem rule_xc_skip {info : CalcInfo} {line : PStr}
    (h : containsSub "LEXCH".data line = false) :
    rule_xc info line = .ok info := by
  simp [rule_xc, h]

theorem rule_cores_skip {info : CalcInfo} {line : PStr}
    (h : containsSub "running on".data line = false) :
    rule_cores info line = .ok info := by
  simp [rule_cores, h]

theorem rule_encut_skip {info : CalcInfo} {line : PStr}
    (h : containsSub "ENCUT".data line = false) :
    rule_encut info line = .ok info := by
  simp [rule_encut, h]

theorem rule_nkpts_skip {info : CalcInfo} {line : PStr}
    (h : containsSub "NKPTS".data line = false) :
    rule_nkpts info line = .ok info := by
  simp [rule_nkpts, h]

theorem rule_elapsed_skip {info : CalcInfo} {line : PStr}
    (h : containsSub "Elapsed time".data line = false) :
    rule_elapsed info line = .ok info := by
  simp [rule_elapsed, h]

theorem rule_nodes_skip {info : CalcInfo}
    (h : ¬(info.Cores.isSome ∧ info.System.isSome)) :
    rule_nodes info = .ok info := by
  simp only [rule_nodes]
  rw [if_neg (by simpa using h)]

theorem rule_cores_fire {info : CalcInfo} {line t2 : PStr} {nc : Int}
    (hc : info.Cores = none) (hr : containsSub "running on".data line = true)
    (ht : (pySplit line)[2]? = some t2) (hi : pyIntParse t2 = some nc) :
    rule_cores info line = .ok { info with Cores := some nc } := by
  simp [rule_cores, hc, hr, pyIdx, ht, pyIntE, hi]

theorem rule_exec_fire {info : CalcInfo} {line sysTok dateTok timeTok : PStr}
    (hs : info.System = none) (he : containsSub "executed on".data line = true)
    (h2 : (pySplit line)[2]? = some sysTok)
    (hl : containsSub "LUMI".data sysTok = false)
    (hT : containsSub "TETRALITH".data sysTok = false)
    (h4 : (pySplit line)[4]? = some dateTok)
    (hlast : (pySplit line).getLast? = some timeTok) :
    rule_exec info line =
      .ok { info with System := some sysTok, Date := some dateTok, Time := some timeTok } := by
  simp [rule_exec, hs, he, pyIdx, h2, h4, pyLast, hlast, hl, hT]

theorem rule_nodes_fire_err {info : CalcInfo} {c : Int} {sys : PStr}
    (hc : info.Cores = some c) (hs : info.System = some sys)
    (hk : system_cpn sys = none) :
    rule_nodes info = .error .keyError := by
  simp [rule_nodes, hc, hs, hk]

theorem processLine_benign {info : CalcInfo} {line : PStr}
    (h : outcarTriggers line = false)
    (hnb : ¬(info.Cores.isSome ∧ info.System.isSome)) :
    processLine info line = .ok info := by
  simp only [outcarTriggers, Bool.or_eq_false_iff] at h
  obtain ⟨⟨⟨⟨⟨⟨⟨h1, h2⟩, h3⟩, h4⟩, h5⟩, h6⟩, h7⟩, h8⟩ := h
  rw [processLine, rule_vasp_skip h1]
  simp only [except_bind_ok]
  rw [rule_potcar_skip h2]
  simp only [except_bind_ok]
  rw [rule_exec_skip h3]
  simp only [except_bind_ok]
  rw [rule_xc_skip h4]
  simp only [except_bind_ok]
  rw [rule_cores_skip h5]
  simp only [except_bind_ok]
  rw [rule_encut_skip h6]
  simp only [except_bind_ok]
  rw [rule_nkpts_skip h7]
  simp only [except_bind_ok]
  rw [rule_elapsed_skip h8]
  simp only [except_bind_ok]
  exact rule_nodes_skip hnb

/-- A line that fires only the `running on` rule. -/
@[reducible] def firesOnlyRunning (l : PStr) : Prop :=
  vaspRe l = false ∧ potcarRe l = false ∧ containsSub "executed on".data l = false ∧
  containsSub "LEXCH".data l = false ∧ containsSub "running on".data l = true ∧
  containsSub "ENCUT".data l = false ∧ containsSub "NKPTS".data l = false ∧
  containsSub "Elapsed time".data l = false

/-- A line that fires only the `executed on` rule. -/
@[reducible] def firesOnlyExecuted (l : PStr) : Prop :=
  vaspRe l = false ∧ potcarRe l = false ∧ containsSub "executed on".data l = true ∧
  containsSub "LEXCH".data l = false ∧ containsSub "running on".data l = false ∧
  containsSub "ENCUT".data l = false ∧ containsSub "NKPTS".data l = false ∧
  containsSub "Elapsed time".data l = false

theorem processLine_run {info : CalcInfo} {line t2 : PStr} {nc : Int}
    (hO : firesOnlyRunning line) (ht : (pySplit line)[2]? = some t2)
    (hi : pyIntParse t2 = some nc) (hc : info.Cores = none) :
    processLine info line =
      rule_nodes { info with Cores := some nc } := by
  obtain ⟨h1, h2, h3, h4, h5, h6, h7, h8⟩ := hO
  rw [processLine, rule_vasp_skip h1]
  simp only [except_bind_ok]
  rw [rule_potcar_skip h2]
  simp only [except_bind_ok]
  rw [rule_exec_skip h3]
  simp only [except_bind_ok]
  rw [rule_xc_skip h4]
  simp only [except_bind_ok]
  rw [rule_cores_fire hc h5 ht hi]
  simp only [except_bind_ok]
  rw [rule_encut_skip h6]
  simp only [except_bind_ok]
  rw [rule_nkpts_skip h7]
  simp only [except_bind_ok]
  rw [rule_elapsed_skip h8]
  simp only [except_bind_ok]

theorem processLine_exec {info : CalcInfo} {line sysTok dateTok timeTok : PStr}
    (hO : firesOnlyExecuted line) (hs : info.System = none)
    (h2 : (pySplit line)[2]? = some sysTok)
    (hl : containsSub "LUMI".data sysTok = false)
    (hT : containsSub "TETRALITH".data sysTok = false)
    (h4 : (pySplit line)[4]? = some dateTok)
    (hlast : (pySplit line).getLast? = some timeTok) :
    processLine info line =
      rule_nodes { info with System := some sysTok, Date := some dateTok,
                             Time := some timeTok } := by
  obtain ⟨h1, h2', h3, h4', h5, h6, h7, h8⟩ := hO
  rw [processLine, rule_vasp_skip h1]
  simp only [except_bind_ok]
  rw [rule_potcar_skip h2']
  simp only [except_bind_ok]
  rw [rule_exec_fire hs h3 h2 hl hT h4 hlast]
  simp only [except_bind_ok]
  rw [rule_xc_skip h4']
  simp only [except_bind_ok]
  rw [rule_cores_skip h5]
  simp only [except_bind_ok]
  rw [rule_encut_skip h6]
  simp only [except_bind_ok]
  rw [rule_nkpts_skip h7]
  simp only [except_bind_ok]
  rw [rule_elapsed_skip h8]
  simp only [except_bind_ok]

theorem po_loop_benign (rest : Lines) (info : CalcInfo) (hCode : info.Code = none)
    (hnb : ¬(info.Cores.isSome ∧ info.System.isSome)) :
    ∀ A : Lines, (∀ l ∈ A, outcarTriggers l = false) →
      po_loop info (A ++ rest) = po_loop info rest := by
  intro A
  induction A with
  | nil => intro _; rfl
  | cons a A ih =>
    intro hA
    rw [List.cons_append, po_loop, if_neg (by simp [complete_false hCode]),
      processLine_benign (hA a (by simp)) hnb]
    simp only [except_bind_ok]
    exact ih fun l hl => hA l (by simp [hl])

/-- C10: an OUTCAR stream holding a well-formed `running on N cores` line and
an `executed on` line whose system token is not Lumi, Dardel, Tetralith or
Sigma (in either order, all other lines quiet) makes `parse_outcar` raise the
unguarded `KeyError` from the cores-per-node lookup instead of returning a
calculation-info record. -/
theorem C10_parse_outcar_unknown_system
    (A B C : Lines) (l1 l2 lr le t2 sysTok dateTok timeTok : PStr) (nc : Int)
    (hA : ∀ l ∈ A, outcarTriggers l = false)
    (hB : ∀ l ∈ B, outcarTriggers l = false)
    (hrO : firesOnlyRunning lr)
    (hrT : (pySplit lr)[2]? = some t2)
    (hrI : pyIntParse t2 = some nc)
    (heO : firesOnlyExecuted le)
    (heT2 : (pySplit le)[2]? = some sysTok)
    (heL : containsSub "LUMI".data sysTok = false)
    (heT : containsSub "TETRALITH".data sysTok = false)
    (heT4 : (pySplit le)[4]? = some dateTok)
    (heTl : (pySplit le).getLast? = some timeTok)
    (hsys : system_cpn sysTok = none)
    (horder : (l1 = lr ∧ l2 = le) ∨ (l1 = le ∧ l2 = lr)) :
    parse_outcar (A ++ l1 :: (B ++ l2 :: C)) = .error .keyError := by
  rcases horder with ⟨rfl, rfl⟩ | ⟨rfl, rfl⟩
  · rw [parse_outcar, po_loop_benign _ _ rfl (by simp) A hA, po_loop,
      if_neg (by simp [complete_false]),
      processLine_run hrO hrT hrI rfl,
      rule_nodes_skip (by simp)]
    simp only [except_bind_ok]
    rw [po_loop_benign _ _ rfl (by simp) B hB, po_loop,
      if_neg (by simp [complete_false]),
      processLine_exec heO rfl heT2 heL heT heT4 heTl,
      rule_nodes_fire_err rfl rfl hsys]
    rfl
  · rw [parse_outcar, po_loop_benign _ _ rfl (by simp) A hA, po_loop,
      if_neg (by simp [complete_false]),
      processLine_exec heO rfl heT2 heL heT heT4 heTl,
      rule_nodes_skip (by simp)]
    simp only [except_bind_ok]
    rw [po_loop_benign _ _ rfl (by simp) B hB, po_loop,
      if_neg (by simp [complete_false]),
      processLine_run hrO hrT hrI rfl,
      rule_nodes_fire_err rfl rfl hsys]
    rfl

/-! ### From parsed strings to structures, and result assembly -/

/-- Modelled from the spec: `FracVector.create` on one string token — the
exact rational value of a decimal literal or a `p/q` fraction. -/
def parseRatToken (s : PStr) : Option ℚ :=
  if s.contains '/' then
    match splitOnChar '/' s with
    | [a, b] => do
      let n ← pyIntParse a
      let d ← pyIntParse b
      if d = 0 then none else pure ((n : ℚ) / (d : ℚ))
    | _ => none
  else pyFloatParse s

/-- Parse rows of three tokens into exact rational vectors
(`FracVector.create` over a nested list; a malformed or short row raises). -/
def parseRows : List (List PStr) → Except PyErr (List Vec3)
  | [] => .ok []
  | r :: rs =>
    match r with
    | [a, b, c] =>
      match parseRatToken a, parseRatToken b, parseRatToken c with
      | some xq, some yq, some zq => do
        let vs ← parseRows rs
        .ok (⟨xq, yq, zq⟩ :: vs)
      | _, _, _ => .error .valueError
    | _ => .error .valueError

/-- Modelled from the spec: `cartesian_to_reduced` — cartesian rows times the
inverse cell, i.e. componentwise dot products with the reciprocal rows. -/
def cartesian_to_reduced_vec (cell : Mat3) (v : Vec3) : Vec3 :=
  ⟨dot v (reciprocal cell).r1, dot v (reciprocal cell).r2, dot v (reciprocal cell).r3⟩

/-- The structure object built by `poscar_to_structure` (`Structure.create`
is an external constructor; the embedding keeps the fields this module
supplies). -/
structure Structure where
  uc_basis : Mat3
  uc_volume : Option ℚ
  uc_scale : Option ℚ
  uc_reduced_coords : List Vec3
  uc_counts : List Int
  assignments : List Int
  comment : PStr
deriving DecidableEq, Repr

/-- `poscar_to_structure`: `poscar_to_strs` plus exact rational conversion.
`periodictable.atomic_number` is the identity on the integer occupations
(modelled from the spec).  With the flag set (`C/c/K/k` marker, i.e. the
cartesian case after the inverted flag of C2) the raw coordinates are
converted through `cartesian_to_reduced`; a singular cell makes that
conversion raise. -/
def poscar_to_structure (lines : Lines) (included_decimals : Option Nat) :
    Except PyErr Structure := do
  let (strs, _) ← poscar_to_strs lines included_decimals
  let cellRows ← parseRows strs.cell
  let basis ← match cellRows with
    | [ra, rb, rc] => Except.ok (⟨ra, rb, rc⟩ : Mat3)
    | _ => Except.error PyErr.valueError
  let rawCoords ← parseRows strs.coords
  let coords ←
    if strs.coords_reduced then
      if det3 basis = 0 then Except.error PyErr.singular
      else Except.ok (rawCoords.map (cartesian_to_reduced_vec basis))
    else Except.ok rawCoords
  let volume ← match strs.vol with
    | none => Except.ok none
    | some v =>
      match parseRatToken v with
      | some q => Except.ok (some q)
      | none => Except.error PyErr.valueError
  let scale ← match strs.scale with
    | none => Except.ok none
    | some v =>
      match parseRatToken v with
      | some q => Except.ok (some q)
      | none => Except.error PyErr.valueError
  Except.ok { uc_basis := basis, uc_volume := volume, uc_scale := scale,
              uc_reduced_coords := coords, uc_counts := strs.counts,
              assignments := strs.occupations, comment := strs.comment }

/-- A VASP run directory: its path, its `os.listdir` listing and the lines of
each file (`bz2` decompression and file IO are transparent; a `none` entry is
a file that cannot be opened). -/
structure VaspDir where
  path : String
  listing : List String
  files : String → Option Lines

/-- Python `os.path.join`. -/
def pathJoin (a b : String) : String := a ++ "/" ++ b

/-- Modelled from the spec: the tuple `read_manifest` returns (an external
manifest/crypto collaborator; consumed as opaque values). -/
structure ManifestData where
  manifest_hash : String
  signatures : List String
  project_key : String
  keys : List String
deriving DecidableEq, Repr

/-- The `Computation` record assembled by `generate_computation`: the
constructor arguments this module supplies, with the tag map carried as the
scanned `CalcInfo` (every tag is one of its fields, stringified). -/
structure Computation where
  computation_date : PStr
  code_name : Option PStr
  code_version : Option PStr
  manifest_hash : String
  signatures : List String
  keys : List String
  relpath : String
  tags : CalcInfo
deriving DecidableEq, Repr

/-- `generate_computation`: scan the listing for OUTCAR-like names (the
substring search runs on the joined path), parse the last match, read the
manifest, build the record.  With no OUTCAR match the name `info` is unbound
(`NameError`); a `None` date or time makes `' '.join` raise `TypeError`. -/
def generate_computation (dir : VaspDir) (manifest : ManifestData) :
    Except PyErr Computation := do
  let infoOpt ← dir.listing.foldlM
    (fun (acc : Option CalcInfo) filename =>
      if containsSub "OUTCAR".data (pathJoin dir.path filename).data then do
        let lines ← match dir.files filename with
          | some ls => Except.ok ls
          | none => Except.error PyErr.ioError
        let info ← parse_outcar lines
        Except.ok (some info)
      else Except.ok acc) none
  match infoOpt with
  | none => Except.error PyErr.nameError
  | some info => do
    let date ← match info.Date, info.Time with
      | some d, some t => Except.ok (d ++ ' ' :: t)
      | _, _ => Except.error PyErr.typeError
    Except.ok { computation_date := date, code_name := info.Code,
                code_version := info.Version,
                manifest_hash := manifest.manifest_hash,
                signatures := manifest.signatures, keys := manifest.keys,
                relpath := dir.path, tags := info }

/-- The record returned by `generate_result` (`Result_TotalEnergyResult`;
the Python keyword `structure` becomes the field `struct`). -/
structure Result_TotalEnergyResult where
  computation : Computation
  struct : Option Structure
  total_energy : ℚ
deriving DecidableEq, Repr

/-- `generate_result`: scan the listing; an OUTCAR-like name is read for the
final energy, a CONTCAR-like name is parsed into the structure (last match
wins for both).  If no CONTCAR was found, a POSCAR parse is attempted purely
for its success: its return value is discarded (vasp_if.py line 604 calls
`poscar_to_structure` without assigning the result), and only a failure —
caught and printed — aborts with `None`.  The returned record therefore
carries `struct = none` whenever the POSCAR fallback was used. -/
def generate_result (dir : VaspDir) (manifest : ManifestData) :
    Except PyErr (Option Result_TotalEnergyResult) := do
  let st ← dir.listing.foldlM
    (fun (st : Option Structure × Option ℚ) filename => do
      let st1 ←
        if containsSub "OUTCAR".data filename.data then do
          let lines ← match dir.files filename with
            | some ls => Except.ok ls
            | none => Except.error PyErr.ioError
          let outcar := read_outcar lines
          let feStr ← match outcar.final_energy with
            | some s => Except.ok s
            | none => Except.error PyErr.attributeError
          let fe ← pyFloatE feStr
          Except.ok (st.1, some fe)
        else Except.ok st
      if containsSub "CONTCAR".data filename.data then do
        let lines ← match dir.files filename with
          | some ls => Except.ok ls
          | none => Except.error PyErr.ioError
        let struct ← poscar_to_structure lines (some 5)
        Except.ok (some struct, st1.2)
      else Except.ok st1)
    (none, none)
  let proceed : Bool :=
    match st.1 with
    | some _ => true
    | none =>
      match dir.files "POSCAR" with
      | none => false
      | some ls =>
        match poscar_to_structure ls (some 5) with
        | .ok _ => true
        | .error _ => false
  if proceed then do
    let computation ← generate_computation dir manifest
    let energy ← match st.2 with
      | some q => Except.ok q
      | none => Except.error PyErr.nameError
    Except.ok (some { computation := computation, struct := st.1,
                      total_energy := energy })
  else Except.ok none

end VaspIf

deriving instance DecidableEq for Except

namespace VaspIf

section Evaluation

set_option allowUnsafeReducibility true

attribute [local semireducible] Rat.add Rat.mul Rat.div Rat.sub Rat.neg Rat.inv

/-- C1, counterexample to the claim as stated: a record written with
`coords_reduced = true` (the `D` marker) parses back with
`coords_reduced = false`, so the round trip does not reproduce the
coordinate-type flag. -/
theorem C1_counterexample :
    (poscar_to_strs (write_poscar
        [("1".data, "0".data, "0".data), ("0".data, "1".data, "0".data),
         ("0".data, "0".data, "1".data)]
        [("0.5".data, "0.5".data, "0.5".data)] true [1] ["Fe".data]
        "c".data "1".data none) none).map
      (fun r => r.1.coords_reduced) = .ok false := by
  decide

/-- C1, witness: the amended round-trip theorem applied to a concrete
one-atom record. -/
theorem C1_poscar_roundtrip_witness :
    poscar_to_strs (write_poscar
        [("1".data, "0".data, "0".data), ("0".data, "1".data, "0".data),
         ("0".data, "0".data, "1".data)]
        [("0".data, "0".data, "0".data)] false [1] ["Fe".data]
        "c".data "1".data none) none =
      .ok ({ cell := [["1".data, "0".data, "0".data], ["0".data, "1".data, "0".data],
                      ["0".data, "0".data, "1".data]],
             scale := some "1".data, vol := none,
             coords := [["0".data, "0".data, "0".data]],
             coords_reduced := true,
             counts := [1], occupations := [26], comment := "c".data }, []) := by
  have h := C1_poscar_roundtrip
    [("1".data, "0".data, "0".data), ("0".data, "1".data, "0".data),
     ("0".data, "0".data, "1".data)]
    [("0".data, "0".data, "0".data)] false [1] ["Fe".data] "c".data "1".data 1
    (by decide) (by decide) (by decide) (by decide) (by decide) (by decide)
    (by decide) (by decide) (by decide) (by decide) (by decide) (by decide)
    (by decide)
  exact h

/-- C2: the coordinate-type marker is read backwards relative to the
function's own docstring.  On a stream whose coordinate-type line is
`Cartesian`, `poscar_to_strs` reports `coords_reduced = true`; on `Direct`
it reports `coords_reduced = false`. -/
theorem C2_coordtype_marker_bug :
    (poscar_to_strs (["c", "1", "1 0 0", "0 1 0", "0 0 1", "1", "Cartesian",
        "0.1 0.2 0.3"].map String.data) none).map
      (fun r => r.1.coords_reduced) = .ok true ∧
    (poscar_to_strs (["c", "1", "1 0 0", "0 1 0", "0 0 1", "1", "Direct",
        "0.1 0.2 0.3"].map String.data) none).map
      (fun r => r.1.coords_reduced) = .ok false := by
  constructor
  · decide
  · decide

/-- C9, witness: an eight-line prefix of a nine-line POSCAR stream (two
coordinate lines are required, one is missing) fails with `StopIteration`. -/
theorem C9_stream_exhaustion_witness :
    poscar_to_strs
      ((["c".data, "1.0".data, "1 0 0".data, "0 1 0".data, "0 0 1".data, "2".data,
        "Direct".data] ++ ["0 0 0".data, "1 1 1".data]).take 8) none
      = .error .stopIteration :=
  C9_stream_exhaustion "c".data "1.0".data "1 0 0".data "0 1 0".data "0 0 1".data
    "2".data "Direct".data ["0 0 0".data, "1 1 1".data] [2] 1 none
    (by decide) (by decide) (by decide) (by decide) (by decide) (by decide)
    (by decide) (by decide) 8 (by decide)

/-- C5, witness: the enumerator applied to a concrete ion list with no
dual-flagged ions produces exactly the direct classification. -/
theorem C5_magnetic_enumerator_witness :
    get_magnetizations ["Fe", "Si"] (5 : Int) 1 = [[some 5, some 1]] := by
  have h := (C5_magnetic_enumerator ["Fe", "Si"] (5 : Int) 1).2.2 (by decide)
  rw [h.1]
  decide

/-- C6, witness: with `Fe` present only under the `_pv` suffix, resolution
returns that suffixed content. -/
theorem C6_pseudopotential_priority_witness :
    get_pseudopotential
      ⟨fun s => s == "Fe_pv", fun s => if s == "Fe_pv" then some "PAW_PBE Fe_pv" else none⟩
      "Fe" = .ok "PAW_PBE Fe_pv" :=
  (C6_pseudopotential_priority
      ⟨fun s => s == "Fe_pv", fun s => if s == "Fe_pv" then some "PAW_PBE Fe_pv" else none⟩
      "Fe").1 3 (by decide) "PAW_PBE Fe_pv" (by decide) (by decide) (by decide)

/-- C3: on a stream with one energy line followed by a `FREE ENERGIE` line,
the reader records both captured energies, and the scan computes
`results['final'] = True` — but `parse` never stores that flag on the reader
(the `OutcarReader` type has no `final` field, matching the Python object,
whose `final` attribute is never assigned); on a stream with no such lines
both energies stay unset and the internal flag stays `False`. -/
theorem C3_outcar_final_not_reported :
    (read_outcar ([" energy  without entropy= -12.34 energy(sigma->0) = -12.30",
        "  FREE ENERGIE OF THE ION-ELECTRON SYSTEM (eV)"].map String.data) =
      { final_energy_with_entropy := some "-12.34".data,
        final_energy := some "-12.30".data, parsed := true } ∧
      outcarResultsFinal ([" energy  without entropy= -12.34 energy(sigma->0) = -12.30",
        "  FREE ENERGIE OF THE ION-ELECTRON SYSTEM (eV)"].map String.data) = true) ∧
    (read_outcar (["POTCAR: PAW_PBE Fe 06Sep2000"].map String.data) =
      { final_energy_with_entropy := none, final_energy := none, parsed := true } ∧
      outcarResultsFinal (["POTCAR: PAW_PBE Fe 06Sep2000"].map String.data) = false) := by
  constructor
  · constructor
    · decide
    · decide
  · constructor
    · decide
    · decide

/-- C7, witness: on the unit cubic cell with the default density the
estimator succeeds with three equal components. -/
theorem C7_calculate_kpoints_witness :
    det3 (diagMat 1) ≠ 0 ∧
    ∃ n : Int, calculate_kpoints (diagMat 1) 20 = .ok (n, n, n) ∧ 1 ≤ n :=
  ⟨by decide, (C7_calculate_kpoints (diagMat 1) 20).2.2 1 (by decide) rfl⟩

/-- C8, witness: a concrete left-handed cell is flipped to positive
determinant. -/
theorem C8_negative_det_fix_witness :
    det3 (diagMat (-1)) < 0 ∧
    0 < det3 (structure_to_poscar true
      ⟨diagMat (-1), [⟨-(1/4), 1/2, 3/4⟩], 1, [1], ["Fe"]⟩).1 :=
  ⟨by decide,
   (C8_negative_det_fix ⟨diagMat (-1), [⟨-(1/4), 1/2, 3/4⟩], 1, [1], ["Fe"]⟩ (by decide)).1⟩

/-- C10, witness: a four-line OUTCAR stream naming the unknown system
`Beskow` makes the scanner raise the lookup error. -/
theorem C10_parse_outcar_unknown_system_witness :
    parse_outcar (["   quiet header line".data] ++ "running on 16 cores".data ::
      ([] ++ " executed on Beskow date 2024.01.01 time 12:00:00".data ::
        ["   trailing line".data])) = .error .keyError :=
  C10_parse_outcar_unknown_system
    ["   quiet header line".data] [] ["   trailing line".data]
    "running on 16 cores".data " executed on Beskow date 2024.01.01 time 12:00:00".data
    "running on 16 cores".data " executed on Beskow date 2024.01.01 time 12:00:00".data
    "16".data "Beskow".data "2024.01.01".data "12:00:00".data 16
    (by decide) (by decide) (by decide) (by decide) (by decide) (by decide)
    (by decide) (by decide) (by decide) (by decide) (by decide) (by decide)
    (Or.inl ⟨rfl, rfl⟩)

/-- An OUTCAR stream for the result-assembly scenarios: one energy block and
an `executed on` line naming a known system (so the metadata scan succeeds). -/
def c4_outcar_lines : Lines :=
  [" energy  without entropy= -12.34 energy(sigma->0) = -12.30",
   "  FREE ENERGIE OF THE ION-ELECTRON SYSTEM (eV)",
   " executed on Dardel date 2024.01.01 time 12:00:00"].map String.data

/-- A well-formed one-atom POSCAR. -/
def c4_poscar_lines : Lines :=
  ["comment", "1.0", "1 0 0", "0 1 0", "0 0 1", "1", "Direct",
   "0.5 0.5 0.5"].map String.data

/-- A directory with an OUTCAR and a parseable POSCAR but no CONTCAR. -/
def c4_dir : VaspDir :=
  ⟨"calc", ["OUTCAR", "POSCAR"],
   fun s => if s = "OUTCAR" then some c4_outcar_lines
     else if s = "POSCAR" then some c4_poscar_lines else none⟩

/-- The same directory with an unparseable POSCAR. -/
def c4_dir_bad : VaspDir :=
  ⟨"calc", ["OUTCAR", "POSCAR"],
   fun s => if s = "OUTCAR" then some c4_outcar_lines
     else if s = "POSCAR" then some ["garbage".data] else none⟩

def c4_manifest : ManifestData := ⟨"hash", ["sig"], "pk", ["k"]⟩

/-- C4: with no CONTCAR in the listing, `generate_result` parses the POSCAR —
the parse succeeds — but the parsed structure is discarded (the call's return
value is never assigned), so the returned result carries `struct = none`
rather than the POSCAR structure; when the POSCAR parse fails instead, the
error is caught and the function returns `None` (`ok none`). -/
theorem C4_poscar_fallback_discarded :
    (poscar_to_structure c4_poscar_lines (some 5)).isOk = true ∧
    (generate_result c4_dir c4_manifest).map (fun r => r.map (fun x => x.struct)) =
      .ok (some none) ∧
    generate_result c4_dir_bad c4_manifest = .ok none := by
  refine ⟨by decide, by decide, by decide⟩

end Evaluation

end VaspIf
